import Mathlib

/-!
Shallow embedding of the mcutils_reborn core (src/mcutils_reborn/__init__.py).

The Python code is an object graph of mutable nodes (Namespace, MCFunction,
Function, FunctionTag, Template, Class, all sharing the Pathable base).
Object identity matters for several properties, so the embedding models the
object graph as a heap: nodes are addressed by natural-number ids, and every
Python method becomes a function from heap to heap.  A single Node structure
carries the union of all class fields, with a kind tag distinguishing the
Python classes; fields not belonging to a kind stay at their defaults and are
never read, mirroring Python attribute layout.

External collaborators that are not part of the core under src (the concrete
Command, Expression and Condition grammars from commands.py, expressions.py,
conditions.py and conversion.py) appear as opaque payloads, as documented on
each definition.
-/

/-- Kind tag distinguishing the Python classes of a heap node. -/
inductive NodeKind where
  | Namespace
  | MCFunction
  | Function
  | FunctionTag
  | Template
  | Class
deriving DecidableEq, Repr

/-- Expressions are external collaborators (expressions.py, not part of the
core); only their identity matters to the core, so they are opaque tokens. -/
abbrev Expr := Nat

/-- Condition is an external collaborator (conditions.py).  Its to_str method
renders a boolean-test string plus opaque unique-token placeholders that are
resolved at export time; the core only splices the string into two commands,
so the embedding keeps the rendered string. -/
structure Condition where
  str : String
deriving DecidableEq, Repr

/-- Commands as the core arranges them.  The concrete grammar lives in
commands.py and conversion.py (external); the embedding keeps exactly the
constructors the core builds: a generic literal command, the comment emitted
at the top of c_call_function (carrying the callee, whether a scalar argument
is present, and the vararg count), the var_to_var command that sets the
dedicated STD_ARG argument register, a plain FunctionCall, and the
ComposedCommand of a LiteralCommand with a FunctionCall that c_if builds. -/
inductive Command where
  | literal (s : String)
  | commentCalling (callee : Nat) (hasArg : Bool) (nVarargs : Nat)
  | setStdArg (e : Expr)
  | functionCall (target : Nat)
  | composed (lit : String) (target : Nat)
deriving DecidableEq, Repr

/-- Memoization key of Template.__call__: the literal ordered sequence of
keyword (name, value) pairs; values are opaque. -/
abbrev TemplateKey := List (String × Nat)

/-- One heap node: the union of the fields of all Python classes in the file,
tagged by kind.  children is the insertion-ordered dict of a Namespace;
commands, continuation, description and tags belong to MCFunction;
args, continuation, entry_point, current_mcfunction and was_ended belong to
Function; memo is Template.functions; inherits_from belongs to Class. -/
structure Node where
  kind : NodeKind := NodeKind.Namespace
  name : String := ""
  parent : Option Nat := none
  children : List (String × Nat) := []
  commands : List Command := []
  continuation : Option Nat := none
  description : String := ""
  tags : List String := []
  args : List String := []
  entry_point : Nat := 0
  current_mcfunction : Nat := 0
  was_ended : Bool := false
  memo : List (TemplateKey × Nat) := []
  inherits_from : List Nat := []
deriving DecidableEq, Repr

instance : Inhabited Node := ⟨{}⟩

/-- The object heap: an arena of nodes.  size is the next fresh id. -/
structure Heap where
  size : Nat
  nodes : Nat → Node

/-- Read a node. -/
def getNode (h : Heap) (i : Nat) : Node := h.nodes i

/-- Overwrite a node in place (Python attribute mutation). -/
def setNode (h : Heap) (i : Nat) (n : Node) : Heap :=
  ⟨h.size, fun j => if j = i then n else h.nodes j⟩

/-- Allocate a fresh node (Python object construction), returning its id. -/
def alloc (h : Heap) (n : Node) : Heap × Nat :=
  (⟨h.size + 1, fun j => if j = h.size then n else h.nodes j⟩, h.size)

/-- The empty heap. -/
def emptyHeap : Heap := ⟨0, fun _ => {}⟩

/-- Insertion-ordered dict assignment, as in Python: an existing key keeps its
position and gets the new value, a new key is appended at the end. -/
def dictSet {α β : Type} [DecidableEq α] : List (α × β) → α → β → List (α × β)
  | [], k, v => [(k, v)]
  | (k', v') :: rest, k, v =>
      if k' = k then (k, v) :: rest else (k', v') :: dictSet rest k v

/-- Dict lookup; none models a Python KeyError. -/
def dictGet {α β : Type} [DecidableEq α] : List (α × β) → α → Option β
  | [], _ => none
  | (k', v') :: rest, k => if k' = k then some v' else dictGet rest k

/-- Fueled version of Pathable.path: the list of names from the root to the
node, following parent links.  Python recurses on the parent with no bound;
in every heap built by this API a parent has a strictly smaller id than its
child, so fuel i + 1 always suffices for node i (see pathW). -/
def pathAux (h : Heap) : Nat → Nat → List String
  | 0, i => [(getNode h i).name]
  | fuel + 1, i =>
      match (getNode h i).parent with
      | none => [(getNode h i).name]
      | some p => pathAux h fuel p ++ [(getNode h i).name]

/-- Pathable.path of node i. -/
def pathW (h : Heap) (i : Nat) : List String := pathAux h (i + 1) i

-- Basic heap algebra.

@[simp] theorem getNode_setNode_self (h : Heap) (i : Nat) (n : Node) :
    getNode (setNode h i n) i = n := by
  simp [getNode, setNode]

theorem getNode_setNode_ne (h : Heap) (i j : Nat) (n : Node) (hij : j ≠ i) :
    getNode (setNode h i n) j = getNode h j := by
  simp [getNode, setNode, hij]

@[simp] theorem size_setNode (h : Heap) (i : Nat) (n : Node) :
    (setNode h i n).size = h.size := rfl

@[simp] theorem alloc_snd (h : Heap) (n : Node) : (alloc h n).2 = h.size := rfl

@[simp] theorem alloc_size (h : Heap) (n : Node) :
    (alloc h n).1.size = h.size + 1 := rfl

@[simp] theorem getNode_alloc_self (h : Heap) (n : Node) :
    getNode (alloc h n).1 h.size = n := by
  simp [getNode, alloc]

theorem getNode_alloc_ne (h : Heap) (n : Node) (j : Nat) (hj : j ≠ h.size) :
    getNode (alloc h n).1 j = getNode h j := by
  simp [getNode, alloc, hj]

theorem dictGet_dictSet_self {α β : Type} [DecidableEq α]
    (m : List (α × β)) (k : α) (v : β) : dictGet (dictSet m k v) k = some v := by
  induction m with
  | nil => simp [dictSet, dictGet]
  | cons kv rest ih =>
      obtain ⟨k', v'⟩ := kv
      by_cases hk : k' = k
      · subst hk; simp [dictSet, dictGet]
      · simp [dictSet, dictGet, hk, ih]

theorem dictGet_dictSet_ne {α β : Type} [DecidableEq α]
    (m : List (α × β)) (k k' : α) (v : β) (hk : k' ≠ k) :
    dictGet (dictSet m k v) k' = dictGet m k' := by
  induction m with
  | nil => simp [dictSet, dictGet, Ne.symm hk]
  | cons kv rest ih =>
      obtain ⟨k0, v0⟩ := kv
      by_cases h0 : k0 = k
      · subst h0
        simp [dictSet, dictGet, Ne.symm hk]
      · by_cases h1 : k0 = k'
        · subst h1; simp [dictSet, dictGet, h0]
        · simp [dictSet, dictGet, h0, h1, ih]

-- Operations of the Namespace tree (Namespace methods in __init__.py).

/-- Namespace.add with a single child (the Python method loops this body over
its varargs): bind the child under its name, overwriting any same-name
binding, then set the child parent back-reference. -/
def ns_add (h : Heap) (selfId child : Nat) : Heap :=
  let h1 := setNode h selfId
    { getNode h selfId with
        children := dictSet (getNode h selfId).children (getNode h child).name child }
  setNode h1 child { getNode h1 child with parent := some selfId }

/-- Namespace.get: direct child lookup; none models the KeyError. -/
def ns_get (h : Heap) (selfId : Nat) (s : String) : Option Nat :=
  dictGet (getNode h selfId).children s

/-- Namespace construction (Namespace.__init__), unattached. -/
def new_namespace (h : Heap) (name : String) : Heap × Nat :=
  alloc h { kind := NodeKind.Namespace, name := name }

/-- Namespace.create_namespace. -/
def create_namespace (h : Heap) (selfId : Nat) (name : String) : Heap × Nat :=
  let p := new_namespace h name
  (ns_add p.1 selfId p.2, p.2)

/-- Namespace.create_mcfunction: construct an MCFunction and add it. -/
def create_mcfunction (h : Heap) (selfId : Nat) (name : String)
    (tags : List String) (description : String) : Heap × Nat :=
  let p := alloc h
    { kind := NodeKind.MCFunction, name := name, tags := tags,
      description := description }
  (ns_add p.1 selfId p.2, p.2)

/-- Namespace.create_function_tag: constructs a FunctionTag whose parent is
the namespace (FunctionTag.__init__ sets it, then the method sets it again),
but, unlike every other create_* method, never calls add, so the tag is not
inserted into the children mapping. -/
def create_function_tag (h : Heap) (selfId : Nat) (name : String) : Heap × Nat :=
  let p := alloc h
    { kind := NodeKind.FunctionTag, name := name, parent := some selfId }
  (setNode p.1 p.2 { getNode p.1 p.2 with parent := some selfId }, p.2)

/-- Namespace.create_class. -/
def create_class (h : Heap) (selfId : Nat) (name : String)
    (inherits_from : List Nat) : Heap × Nat :=
  let p := alloc h
    { kind := NodeKind.Class, name := name, inherits_from := inherits_from }
  (ns_add p.1 selfId p.2, p.2)

/-- Namespace.create_template.  The template callable is Python data that the
embedding cannot store first-order in the node; template_call below takes the
callable as an explicit argument instead. -/
def create_template (h : Heap) (selfId : Nat) (name : String) : Heap × Nat :=
  let p := alloc h { kind := NodeKind.Template, name := name }
  (ns_add p.1 selfId p.2, p.2)

-- Function (Function methods in __init__.py).

/-- Function.__init__: a Function is a Namespace that eagerly creates its
entry MCFunction as a child under its own name, points its
current_mcfunction cursor at it, and starts with was_ended false.
init() is a no-op placeholder in the source. -/
def function_init (h : Heap) (name : String) (args : List String)
    (tags : List String) (description : String) : Heap × Nat :=
  let p := alloc h { kind := NodeKind.Function, name := name, args := args }
  let q := create_mcfunction p.1 p.2 name tags description
  (setNode q.1 p.2
    { getNode q.1 p.2 with
        continuation := none, entry_point := q.2, current_mcfunction := q.2,
        was_ended := false }, p.2)

/-- Namespace.create_function. -/
def create_function (h : Heap) (selfId : Nat) (name : String) (args : List String)
    (tags : List String) (description : String) : Heap × Nat :=
  let p := function_init h name args tags description
  (ns_add p.1 selfId p.2, p.2)

/-- MCFunction.add_command: append one command to a unit. -/
def mcf_add_command (h : Heap) (mid : Nat) (c : Command) : Heap :=
  setNode h mid
    { getNode h mid with commands := (getNode h mid).commands ++ [c] }

/-- Function.add_command: asserts the Function was not ended (none models the
AssertionError), then appends each command to the current unit in order. -/
def add_command (h : Heap) (selfId : Nat) (cmds : List Command) : Option Heap :=
  if (getNode h selfId).was_ended then none
  else some (cmds.foldl
    (fun hh c => mcf_add_command hh (getNode hh selfId).current_mcfunction c) h)

/-- Function.c_if: creates the then-branch child Function (named from the
child count before the insertion) and the continuation unit (named from the
child count after the then-branch was inserted), emits the two dispatch
commands into the current unit, wires the then-branch continuation to the
continuation unit and advances the cursor there.  Returns the then-branch. -/
def c_if (h : Heap) (selfId : Nat) (condition : Condition) :
    Option (Heap × Nat) :=
  let p := create_function h selfId
    ("if" ++ toString (getNode h selfId).children.length) [] [] ""
  let q := create_mcfunction p.1 selfId
    ("if-continue" ++ toString (getNode p.1 selfId).children.length) [] ""
  match add_command q.1 selfId
    [Command.composed ("execute if " ++ condition.str ++ " run")
        (getNode q.1 p.2).entry_point,
     Command.composed ("execute unless " ++ condition.str ++ " run") q.2] with
  | none => none
  | some h3 =>
      let h4 := setNode h3 p.2
        { getNode h3 p.2 with continuation := some q.2 }
      let h5 := setNode h4 selfId
        { getNode h4 selfId with current_mcfunction := q.2 }
      some (h5, p.2)

/-- Function.end: if already ended do nothing, otherwise wire the current
unit fallthrough continuation to the Function own continuation and set
was_ended. -/
def end_function (h : Heap) (selfId : Nat) : Heap :=
  if (getNode h selfId).was_ended then h
  else
    let cm := (getNode h selfId).current_mcfunction
    let h1 := setNode h cm
      { getNode h cm with continuation := (getNode h selfId).continuation }
    setNode h1 selfId { getNode h1 selfId with was_ended := true }

-- Calling convention (Function.c_call_function in __init__.py).

/-- Body of Function.c_call_function for an empty vararg tuple: emit the
comment, set the STD_ARG register when a scalar argument is given, then emit
the unconditional FunctionCall to the callee entry unit.  var_to_var and
STD_ARG come from conversion.py and lib/std.py (external); the command that
sets the register is the opaque Command.setStdArg. -/
def c_call_single (h : Heap) (selfId callee : Nat) (arg : Option Expr) :
    Option Heap := do
  let h1 ← add_command h selfId [Command.commentCalling callee arg.isSome 0]
  let h2 ← match arg with
    | some a => add_command h1 selfId [Command.setStdArg a]
    | none => pure h1
  add_command h2 selfId [Command.functionCall (getNode h2 callee).entry_point]

/-- Function.c_call_function.  The loop body of the source invokes
c_call_function recursively with the vararg as the single scalar argument and
no varargs; since that recursive instance is exactly c_call_single (see
c_call_function_nil_varargs below), the embedding folds c_call_single over
the varargs.  pushFn stands for std_stack_push(stack_nr=STD_ARGSTACK).
Modelled from the spec: std_stack_push lives in lib/std/stack.py, which is
not under src; the spec describes it as an external stack-push routine that
the convention calls once per vararg, so it is represented by the id pushFn
of an already-compiled Function. -/
def c_call_function (h : Heap) (selfId callee : Nat) (arg : Option Expr)
    (varargs : List Expr) (pushFn : Nat) : Option Heap := do
  let h1 ← add_command h selfId
    [Command.commentCalling callee arg.isSome varargs.length]
  let h2 ← varargs.foldlM (fun hh v => c_call_single hh selfId pushFn (some v)) h1
  let h3 ← match arg with
    | some a => add_command h2 selfId [Command.setStdArg a]
    | none => pure h2
  add_command h3 selfId [Command.functionCall (getNode h3 callee).entry_point]

/-- The recursive per-vararg call of the source, c_call_function with a single
scalar argument and no varargs, is exactly c_call_single. -/
theorem c_call_function_nil_varargs (h : Heap) (selfId callee : Nat)
    (arg : Option Expr) (pushFn : Nat) :
    c_call_function h selfId callee arg [] pushFn =
      c_call_single h selfId callee arg := rfl

-- Template memoizer (Template.__call__ in __init__.py).

/-- Template.__call__.  tmpl is the stored template callable (Python data the
first-order node cannot hold, so it is an explicit argument); key is the
ordered tuple of keyword items.  On a miss the callable runs, the produced
Function is ended, stored in the memo and added as a child; on a hit the
stored Function is returned.  The returned Bool records whether the callable
was invoked, so invocation counting is part of the result. -/
def template_call (tmpl : Heap → Heap × Nat) (h : Heap) (selfId : Nat)
    (key : TemplateKey) : Heap × Nat × Bool :=
  match dictGet (getNode h selfId).memo key with
  | some fid => (h, fid, false)
  | none =>
      let p := tmpl h
      let h2 := end_function p.1 p.2
      let h3 := setNode h2 selfId
        { getNode h2 selfId with memo := dictSet (getNode h2 selfId).memo key p.2 }
      let h4 := ns_add h3 selfId p.2
      (h4, p.2, true)

-- Class resolver (Class.get in __init__.py).

/-- First successful lookup among the declared parents, in declaration order:
a parent raising KeyError (some none) is skipped, a parent returning a value
wins, and if every parent misses the original KeyError propagates.  The outer
none signals fuel exhaustion of the recursive lookup. -/
def first_parent (f : Nat → Option (Option Nat)) : List Nat → Option (Option Nat)
  | [] => some none
  | p :: rest =>
      match f p with
      | none => none
      | some (some v) => some (some v)
      | some none => first_parent f rest

/-- Dynamic-dispatch get: Class.get tries the direct children and falls back
to the declared parents in order (each parent looked up with its own get,
hence recursively); every other Namespace kind uses plain Namespace.get.
The fuel bounds the inheritance chain; Python recurses unboundedly. -/
def node_get (h : Heap) : Nat → Nat → String → Option (Option Nat)
  | 0, _, _ => none
  | fuel + 1, i, s =>
      if (getNode h i).kind = NodeKind.Class then
        match ns_get h i s with
        | some v => some (some v)
        | none => first_parent (fun p => node_get h fuel p s)
            (getNode h i).inherits_from
      else some (ns_get h i s)

-- Flatten/export pass (Namespace.get_all_mcfunctions in __init__.py).

/-- The export artifact: the insertion-ordered mapping from full unit path to
unit id. -/
abbrev PathMap := List (List String × Nat)

/-- Python dict merge (the |= in the source): entries of sub overwrite and
extend acc. -/
def merge_sub (acc sub : PathMap) : PathMap :=
  sub.foldl (fun a kv => dictSet a kv.1 kv.2) acc

/-- Merge the recursive result of a child namespace into the accumulator,
propagating fuel exhaustion and the unfinished-scope error. -/
def recurse_merge (r : Option (Except (List String) PathMap)) (m : PathMap) :
    Option (Except (List String) PathMap) :=
  match r with
  | none => none
  | some (Except.error e) => some (Except.error e)
  | some (Except.ok sub) => some (Except.ok (merge_sub m sub))

/-- One child of the traversal loop: an MCFunction child contributes its
(path, unit) entry; a Namespace-kind child is recursed into, except that a
Function child that was not ended aborts the whole pass with an error
carrying the offending canonical path (the assert message in the source
renders exactly that path); a bare Pathable such as a FunctionTag is
skipped.  Errors and fuel exhaustion short-circuit the fold. -/
def export_step (h : Heap) (rec : Nat → Option (Except (List String) PathMap))
    (acc : Option (Except (List String) PathMap)) (kc : String × Nat) :
    Option (Except (List String) PathMap) :=
  match acc with
  | none => none
  | some (Except.error e) => some (Except.error e)
  | some (Except.ok m) =>
      match (getNode h kc.2).kind with
      | NodeKind.MCFunction => some (Except.ok (dictSet m (pathW h kc.2) kc.2))
      | NodeKind.FunctionTag => some (Except.ok m)
      | NodeKind.Function =>
          if (getNode h kc.2).was_ended then recurse_merge (rec kc.2) m
          else some (Except.error (pathW h kc.2))
      | _ => recurse_merge (rec kc.2) m

/-- Namespace.get_all_mcfunctions: fold the children in insertion order.
The fuel bounds the tree depth; Python recurses unboundedly, so none models
a traversal that would not terminate, never a successful result. -/
def get_all_mcfunctions (h : Heap) : Nat → Nat → Option (Except (List String) PathMap)
  | 0, _ => none
  | fuel + 1, i =>
      (getNode h i).children.foldl
        (export_step h (fun c => get_all_mcfunctions h fuel c))
        (some (Except.ok []))

-- End-to-end scenario of the spec (root namespace, one function, one c_if).

/-- The end-to-end build: root namespace "ns"; Function "f" with no
parameters; one command; c_if with a literal always-true condition; one
command in the then-branch; end the then-branch; end f.  Returns the final
heap together with the ids of the root namespace, of f and of the
then-branch.  Node ids allocated along the way: 0 = ns, 1 = f, 2 = entry
unit of f, 3 = then-branch, 4 = entry unit of the then-branch,
5 = continuation unit. -/
def e2e_build : Option (Heap × Nat × Nat × Nat) := do
  let (h0, nsId) := new_namespace emptyHeap ("ns")
  let (h1, fId) := create_function h0 nsId ("f") [] [] ("")
  let h2 ← add_command h1 fId [Command.literal ("say one")]
  let (h3, ifId) ← c_if h2 fId ⟨"true"⟩
  let h4 ← add_command h3 ifId [Command.literal ("say two")]
  let h5 := end_function h4 ifId
  let h6 := end_function h5 fId
  pure (h6, nsId, fId, ifId)

/-- The heap the end-to-end build produces. -/
def e2e_heap : Heap := ((e2e_build).getD (emptyHeap, 0, 0, 0)).1

deriving instance DecidableEq for Except

/-- C1 counterexample: in the end-to-end scenario the then-branch Function is
named if1 (the entry unit already occupies one child slot when c_if reads the
child count) and the continuation unit is named if-continue2 (the count is
read again after the then-branch was inserted), so the two numbers differ and
neither is 0; the exported map holds no path containing if0 or if-continue0,
refuting the claimed paths f/if0 and f/if-continue0 and the claim that both
names share one N. -/
theorem c1_counterexample :
    (e2e_build).isSome = true ∧
    get_all_mcfunctions e2e_heap 5 0 =
      some (Except.ok
        [(["ns", "f", "f"], 2),
         (["ns", "f", "if1", "if1"], 4),
         (["ns", "f", "if-continue2"], 5)]) ∧
    (getNode e2e_heap 3).name = "if1" ∧
    (getNode e2e_heap 5).name = "if-continue2" ∧
    (getNode e2e_heap 3).name ≠ "if0" ∧
    (getNode e2e_heap 5).name ≠ "if-continue0" ∧
    (getNode e2e_heap 5).name ≠ "if-continue1" ∧
    (∀ kv ∈ [(["ns", "f", "f"], 2),
             (["ns", "f", "if1", "if1"], 4),
             (["ns", "f", "if-continue2"], 5)],
       ¬ "if0" ∈ (kv : List String × Nat).1 ∧
       ¬ "if-continue0" ∈ (kv : List String × Nat).1) := by
  decide

/-- C1 amended: the end-to-end scenario exports exactly three units, with
full paths ns/f/f (the entry unit of f), ns/f/if1/if1 and ns/f/if-continue2;
the entry unit of f holds three commands (the original command plus the two
branch-dispatch commands); the then-branch name carries the child count read
before the then-branch was inserted (1: the entry unit), the continuation
unit name carries the count read after (2). -/
theorem c1_amended :
    (e2e_build).isSome = true ∧
    get_all_mcfunctions e2e_heap 5 0 =
      some (Except.ok
        [(["ns", "f", "f"], 2),
         (["ns", "f", "if1", "if1"], 4),
         (["ns", "f", "if-continue2"], 5)]) ∧
    [(["ns", "f", "f"], 2),
     (["ns", "f", "if1", "if1"], 4),
     (["ns", "f", "if-continue2"], (5 : Nat))].length = 3 ∧
    (getNode e2e_heap 2).commands.length = 3 ∧
    (getNode e2e_heap 3).name = "if" ++ toString 1 ∧
    (getNode e2e_heap 5).name = "if-continue" ++ toString 2 ∧
    (getNode e2e_heap 2).commands =
      [Command.literal ("say one"),
       Command.composed ("execute if true run") 4,
       Command.composed ("execute unless true run") 5] := by
  decide

-- The add_command loop: only the current unit changes, and its commands
-- grow by exactly the given commands, in order.

theorem add_command_foldl (cmds : List Command) :
    ∀ (h : Heap) (selfId j : Nat),
    getNode (cmds.foldl
      (fun hh c => mcf_add_command hh (getNode hh selfId).current_mcfunction c) h) j =
      if j = (getNode h selfId).current_mcfunction then
        { getNode h ((getNode h selfId).current_mcfunction) with
            commands :=
              (getNode h ((getNode h selfId).current_mcfunction)).commands ++ cmds }
      else getNode h j := by
  induction cmds with
  | nil =>
      intro h selfId j
      simp only [List.foldl_nil, List.append_nil]
      by_cases hj : j = (getNode h selfId).current_mcfunction
      · rw [if_pos hj, hj]
      · rw [if_neg hj]
  | cons c rest ih =>
      intro h selfId j
      simp only [List.foldl_cons]
      have hcm : (getNode (mcf_add_command h (getNode h selfId).current_mcfunction c)
          selfId).current_mcfunction = (getNode h selfId).current_mcfunction := by
        by_cases hs : selfId = (getNode h selfId).current_mcfunction
        · rw [mcf_add_command, ← hs, getNode_setNode_self, ← hs]
        · rw [mcf_add_command, getNode_setNode_ne _ _ _ _ hs]
      rw [ih (mcf_add_command h (getNode h selfId).current_mcfunction c) selfId j, hcm]
      by_cases hj : j = (getNode h selfId).current_mcfunction
      · rw [if_pos hj, if_pos hj, mcf_add_command, getNode_setNode_self]
        simp
      · rw [if_neg hj, if_neg hj, mcf_add_command, getNode_setNode_ne _ _ _ _ hj]

-- Node-level characterizations of the tree-building operations.

@[simp] theorem ns_add_size (h : Heap) (s c : Nat) : (ns_add h s c).size = h.size := rfl

theorem getNode_ns_add_other (h : Heap) (s c j : Nat) (hjs : j ≠ s) (hjc : j ≠ c) :
    getNode (ns_add h s c) j = getNode h j := by
  rw [ns_add, getNode_setNode_ne _ _ _ _ hjc, getNode_setNode_ne _ _ _ _ hjs]

theorem getNode_ns_add_child (h : Heap) (s c : Nat) (hcs : c ≠ s) :
    getNode (ns_add h s c) c = { getNode h c with parent := some s } := by
  rw [ns_add, getNode_setNode_self, getNode_setNode_ne _ _ _ _ hcs]

theorem getNode_ns_add_self (h : Heap) (s c : Nat) (hsc : s ≠ c) :
    getNode (ns_add h s c) s =
      { getNode h s with
          children := dictSet (getNode h s).children (getNode h c).name c } := by
  rw [ns_add, getNode_setNode_ne _ _ _ _ hsc, getNode_setNode_self]

@[simp] theorem create_mcfunction_snd (h : Heap) (s : Nat) (n : String)
    (t : List String) (d : String) : (create_mcfunction h s n t d).2 = h.size := rfl

@[simp] theorem create_mcfunction_size (h : Heap) (s : Nat) (n : String)
    (t : List String) (d : String) :
    (create_mcfunction h s n t d).1.size = h.size + 1 := rfl

theorem getNode_create_mcfunction_other (h : Heap) (s : Nat) (n : String)
    (t : List String) (d : String) (j : Nat) (hjs : j ≠ s) (hj : j ≠ h.size) :
    getNode (create_mcfunction h s n t d).1 j = getNode h j := by
  simp only [create_mcfunction, alloc_snd]
  rw [getNode_ns_add_other _ _ _ _ hjs hj, getNode_alloc_ne _ _ _ hj]

theorem getNode_create_mcfunction_new (h : Heap) (s : Nat) (n : String)
    (t : List String) (d : String) (hs : s ≠ h.size) :
    getNode (create_mcfunction h s n t d).1 h.size =
      { kind := NodeKind.MCFunction, name := n, tags := t, description := d,
        parent := some s } := by
  simp only [create_mcfunction, alloc_snd]
  rw [getNode_ns_add_child _ _ _ (Ne.symm hs), getNode_alloc_self]

theorem getNode_create_mcfunction_self (h : Heap) (s : Nat) (n : String)
    (t : List String) (d : String) (hs : s ≠ h.size) :
    getNode (create_mcfunction h s n t d).1 s =
      { getNode h s with children := dictSet (getNode h s).children n h.size } := by
  simp only [create_mcfunction, alloc_snd]
  rw [getNode_ns_add_self _ _ _ hs, getNode_alloc_self, getNode_alloc_ne _ _ _ hs]

theorem getNode_create_mcfunction_new_at (h : Heap) (s : Nat) (n : String)
    (t : List String) (d : String) (j : Nat) (hj : j = h.size) (hs : s ≠ h.size) :
    getNode (create_mcfunction h s n t d).1 j =
      { kind := NodeKind.MCFunction, name := n, tags := t, description := d,
        parent := some s } := by
  subst hj; exact getNode_create_mcfunction_new h s n t d hs

@[simp] theorem function_init_snd (h : Heap) (n : String) (a t : List String)
    (d : String) : (function_init h n a t d).2 = h.size := rfl

@[simp] theorem function_init_size (h : Heap) (n : String) (a t : List String)
    (d : String) : (function_init h n a t d).1.size = h.size + 2 := rfl

theorem getNode_function_init_other (h : Heap) (n : String) (a t : List String)
    (d : String) (j : Nat) (hj0 : j ≠ h.size) (hj1 : j ≠ h.size + 1) :
    getNode (function_init h n a t d).1 j = getNode h j := by
  rw [function_init]
  simp only [alloc_snd]
  rw [getNode_setNode_ne _ _ _ _ hj0,
    getNode_create_mcfunction_other _ _ _ _ _ _ hj0 (by simpa using hj1),
    getNode_alloc_ne _ _ _ hj0]

theorem getNode_function_init_self (h : Heap) (n : String) (a t : List String)
    (d : String) :
    getNode (function_init h n a t d).1 h.size =
      { kind := NodeKind.Function, name := n, args := a,
        children := [(n, h.size + 1)], continuation := none,
        entry_point := h.size + 1, current_mcfunction := h.size + 1,
        was_ended := false } := by
  simp only [function_init, alloc_snd, create_mcfunction_snd, alloc_size]
  rw [getNode_setNode_self,
    getNode_create_mcfunction_self _ _ _ _ _ (by simp),
    getNode_alloc_self]
  simp [dictSet]

theorem getNode_function_init_entry (h : Heap) (n : String) (a t : List String)
    (d : String) :
    getNode (function_init h n a t d).1 (h.size + 1) =
      { kind := NodeKind.MCFunction, name := n, tags := t, description := d,
        parent := some h.size } := by
  simp only [function_init, alloc_snd, create_mcfunction_snd, alloc_size]
  rw [getNode_setNode_ne _ _ _ _ (by omega),
    getNode_create_mcfunction_new_at _ _ _ _ _ _ (by simp) (by simp)]

@[simp] theorem create_function_snd (h : Heap) (s : Nat) (n : String)
    (a t : List String) (d : String) : (create_function h s n a t d).2 = h.size := rfl

@[simp] theorem create_function_size (h : Heap) (s : Nat) (n : String)
    (a t : List String) (d : String) :
    (create_function h s n a t d).1.size = h.size + 2 := rfl

theorem getNode_create_function_other (h : Heap) (s : Nat) (n : String)
    (a t : List String) (d : String) (j : Nat) (hjs : j ≠ s) (hj0 : j ≠ h.size)
    (hj1 : j ≠ h.size + 1) :
    getNode (create_function h s n a t d).1 j = getNode h j := by
  simp only [create_function, function_init_snd]
  rw [getNode_ns_add_other _ _ _ _ hjs hj0,
    getNode_function_init_other _ _ _ _ _ _ hj0 hj1]

theorem getNode_create_function_new (h : Heap) (s : Nat) (n : String)
    (a t : List String) (d : String) (hs0 : s ≠ h.size) :
    getNode (create_function h s n a t d).1 h.size =
      { kind := NodeKind.Function, name := n, args := a,
        children := [(n, h.size + 1)], continuation := none,
        entry_point := h.size + 1, current_mcfunction := h.size + 1,
        was_ended := false, parent := some s } := by
  simp only [create_function, function_init_snd]
  rw [getNode_ns_add_child _ _ _ (Ne.symm hs0), getNode_function_init_self]

theorem getNode_create_function_entry (h : Heap) (s : Nat) (n : String)
    (a t : List String) (d : String) (hs1 : s ≠ h.size + 1) :
    getNode (create_function h s n a t d).1 (h.size + 1) =
      { kind := NodeKind.MCFunction, name := n, tags := t, description := d,
        parent := some h.size } := by
  simp only [create_function, function_init_snd]
  rw [getNode_ns_add_other _ _ _ _ (Ne.symm hs1) (by omega),
    getNode_function_init_entry]

theorem getNode_create_function_self (h : Heap) (s : Nat) (n : String)
    (a t : List String) (d : String) (hs0 : s ≠ h.size) (hs1 : s ≠ h.size + 1) :
    getNode (create_function h s n a t d).1 s =
      { getNode h s with children := dictSet (getNode h s).children n h.size } := by
  simp only [create_function, function_init_snd]
  rw [getNode_ns_add_self _ _ _ hs0, getNode_function_init_self,
    getNode_function_init_other _ _ _ _ _ _ hs0 hs1]

/-- C5: Function.add_command fails with the assertion error when the Function
was already ended; on a Function not yet ended it succeeds, appends exactly
the given commands to the current unit in order, and changes no other node. -/
theorem add_command_spec (h : Heap) (selfId : Nat) (cmds : List Command) :
    ((getNode h selfId).was_ended = true → add_command h selfId cmds = none) ∧
    ((getNode h selfId).was_ended = false →
      ∃ h2, add_command h selfId cmds = some h2 ∧
        (getNode h2 ((getNode h selfId).current_mcfunction)).commands =
          (getNode h ((getNode h selfId).current_mcfunction)).commands ++ cmds ∧
        ∀ j, j ≠ (getNode h selfId).current_mcfunction →
          getNode h2 j = getNode h j) := by
  constructor
  · intro he
    simp [add_command, he]
  · intro he
    refine ⟨cmds.foldl
        (fun hh c => mcf_add_command hh (getNode hh selfId).current_mcfunction c) h,
      by simp [add_command, he], ?_, ?_⟩
    · rw [add_command_foldl cmds h selfId, if_pos rfl]
    · intro j hj
      rw [add_command_foldl cmds h selfId, if_neg hj]

/-- Heap for the C5 witness: a single fresh Function named g at id 0 with its
entry unit at id 1. -/
def w5_heap : Heap := (function_init emptyHeap ("g") [] [] ("")).1

/-- C5 witness: add_command at a concrete not-yet-ended Function. -/
theorem add_command_spec_witness :
    (getNode w5_heap 0).was_ended = false ∧
    (((getNode w5_heap 0).was_ended = true →
        add_command w5_heap 0 [Command.literal ("say x")] = none) ∧
     ((getNode w5_heap 0).was_ended = false →
       ∃ h2, add_command w5_heap 0 [Command.literal ("say x")] = some h2 ∧
         (getNode h2 ((getNode w5_heap 0).current_mcfunction)).commands =
           (getNode w5_heap ((getNode w5_heap 0).current_mcfunction)).commands ++
             [Command.literal ("say x")] ∧
         ∀ j, j ≠ (getNode w5_heap 0).current_mcfunction →
           getNode h2 j = getNode w5_heap j)) :=
  ⟨by decide, add_command_spec w5_heap 0 [Command.literal ("say x")]⟩

/-- C6: Function.end is idempotent.  After end the Function is marked ended;
ending an already ended Function returns the heap unchanged (so a second end
has no observable effect on any node); and the first end of a not-yet-ended
Function wires the continuation of its current unit to the continuation of
the Function itself. -/
theorem end_function_of_ended (h : Heap) (i : Nat)
    (he : (getNode h i).was_ended = true) : end_function h i = h := by
  simp [end_function, he]

theorem end_function_spec (h : Heap) (i : Nat) :
    (getNode (end_function h i) i).was_ended = true ∧
    end_function (end_function h i) i = end_function h i ∧
    ((getNode h i).was_ended = true → end_function h i = h) ∧
    ((getNode h i).was_ended = false →
      (getNode (end_function h i) ((getNode h i).current_mcfunction)).continuation =
        (getNode h i).continuation) := by
  by_cases he : (getNode h i).was_ended
  · have h1 : end_function h i = h := end_function_of_ended h i he
    exact ⟨by rw [h1]; exact he, by rw [h1, h1], fun _ => h1,
      fun hf => absurd he (by simp [hf])⟩
  · have he' : (getNode h i).was_ended = false := by simpa using he
    have hend : end_function h i =
        setNode
          (setNode h ((getNode h i).current_mcfunction)
            { getNode h ((getNode h i).current_mcfunction) with
                continuation := (getNode h i).continuation }) i
          { getNode
              (setNode h ((getNode h i).current_mcfunction)
                { getNode h ((getNode h i).current_mcfunction) with
                    continuation := (getNode h i).continuation }) i with
              was_ended := true } := by
      simp [end_function, he']
    have hw : (getNode (end_function h i) i).was_ended = true := by
      rw [hend, getNode_setNode_self]
    refine ⟨hw, end_function_of_ended _ _ hw, fun ht => absurd ht (by simp [he']), ?_⟩
    intro _
    by_cases hci : (getNode h i).current_mcfunction = i
    · rw [hend, hci, getNode_setNode_self, getNode_setNode_self]
    · rw [hend, getNode_setNode_ne _ _ _ _ hci, getNode_setNode_self]

/-- C6 witness: ending the already built end-to-end function f (id 1) again,
and ending a freshly built un-ended Function (id 0 of w6_heap). -/
def w6_heap : Heap := (function_init emptyHeap ("g") [] [] ("")).1

/-- C6 witness: the spec instantiated at a concrete un-ended Function. -/
theorem end_function_spec_witness :
    (getNode w6_heap 0).was_ended = false ∧
    ((getNode (end_function w6_heap 0) 0).was_ended = true ∧
     end_function (end_function w6_heap 0) 0 = end_function w6_heap 0 ∧
     ((getNode w6_heap 0).was_ended = true → end_function w6_heap 0 = w6_heap) ∧
     ((getNode w6_heap 0).was_ended = false →
       (getNode (end_function w6_heap 0)
         ((getNode w6_heap 0).current_mcfunction)).continuation =
           (getNode w6_heap 0).continuation)) :=
  ⟨by decide, end_function_spec w6_heap 0⟩

-- Field-level facts about ns_add, used by the replacement property and the
-- template memoizer proofs.

theorem ns_add_parent (h : Heap) (s c : Nat) :
    (getNode (ns_add h s c) c).parent = some s := by
  simp only [ns_add]
  simp

theorem getNode_ns_add_self_eq (h : Heap) (s : Nat) :
    getNode (ns_add h s s) s =
      { getNode h s with
          children := dictSet (getNode h s).children (getNode h s).name s,
          parent := some s } := by
  simp only [ns_add]
  simp

theorem ns_add_name (h : Heap) (s c j : Nat) :
    (getNode (ns_add h s c) j).name = (getNode h j).name := by
  simp only [ns_add]
  by_cases hjc : j = c
  · subst hjc
    by_cases hjs : j = s
    · subst hjs; simp
    · simp [getNode_setNode_ne _ _ _ _ hjs]
  · by_cases hjs : j = s
    · subst hjs; simp [getNode_setNode_ne _ _ _ _ hjc]
    · simp [getNode_setNode_ne _ _ _ _ hjc, getNode_setNode_ne _ _ _ _ hjs]

theorem ns_add_was_ended (h : Heap) (s c j : Nat) :
    (getNode (ns_add h s c) j).was_ended = (getNode h j).was_ended := by
  simp only [ns_add]
  by_cases hjc : j = c
  · subst hjc
    by_cases hjs : j = s
    · subst hjs; simp
    · simp [getNode_setNode_ne _ _ _ _ hjs]
  · by_cases hjs : j = s
    · subst hjs; simp [getNode_setNode_ne _ _ _ _ hjc]
    · simp [getNode_setNode_ne _ _ _ _ hjc, getNode_setNode_ne _ _ _ _ hjs]

theorem ns_add_memo (h : Heap) (s c j : Nat) :
    (getNode (ns_add h s c) j).memo = (getNode h j).memo := by
  simp only [ns_add]
  by_cases hjc : j = c
  · subst hjc
    by_cases hjs : j = s
    · subst hjs; simp
    · simp [getNode_setNode_ne _ _ _ _ hjs]
  · by_cases hjs : j = s
    · subst hjs; simp [getNode_setNode_ne _ _ _ _ hjc]
    · simp [getNode_setNode_ne _ _ _ _ hjc, getNode_setNode_ne _ _ _ _ hjs]

/-- C9: adding two children under the same local name to a Namespace: the
second add replaces the binding, so get returns the second child, while each
add sets the parent of its child at insertion time, and the first child keeps
its parent pointing at the namespace after being shadowed. -/
theorem ns_add_spec (h : Heap) (n c1 c2 : Nat) (s : String)
    (hn1 : (getNode h c1).name = s) (hn2 : (getNode h c2).name = s) :
    ns_get (ns_add (ns_add h n c1) n c2) n s = some c2 ∧
    (getNode (ns_add h n c1) c1).parent = some n ∧
    (getNode (ns_add (ns_add h n c1) n c2) c2).parent = some n ∧
    (getNode (ns_add (ns_add h n c1) n c2) c1).parent = some n := by
  have hparent1 : (getNode (ns_add h n c1) c1).parent = some n := ns_add_parent h n c1
  have hname2 : (getNode (ns_add h n c1) c2).name = s := by
    rw [ns_add_name]; exact hn2
  refine ⟨?_, hparent1, ns_add_parent _ n c2, ?_⟩
  · by_cases hnc2 : n = c2
    · subst hnc2
      rw [ns_get, getNode_ns_add_self_eq]
      simp only [hname2]
      exact dictGet_dictSet_self _ _ _
    · rw [ns_get, getNode_ns_add_self _ _ _ hnc2]
      simp only [hname2]
      exact dictGet_dictSet_self _ _ _
  · by_cases h12 : c1 = c2
    · subst h12; exact ns_add_parent _ n c1
    · by_cases h1n : c1 = n
      · subst h1n
        rw [getNode_ns_add_self _ _ _ (by exact h12)]
        simpa using hparent1
      · rw [getNode_ns_add_other _ _ _ _ h1n h12]
        exact hparent1

/-- Heap for the C9 witness: three fresh namespaces a (id 0), x (id 1),
x (id 2); ids 1 and 2 carry the same local name. -/
def w9_heap : Heap :=
  (new_namespace (new_namespace (new_namespace emptyHeap ("a")).1 ("x")).1 ("x")).1

/-- C9 witness: the replacement property at the concrete heap. -/
theorem ns_add_spec_witness :
    (getNode w9_heap 1).name = "x" ∧ (getNode w9_heap 2).name = "x" ∧
    (ns_get (ns_add (ns_add w9_heap 0 1) 0 2) 0 "x" = some 2 ∧
     (getNode (ns_add w9_heap 0 1) 1).parent = some 0 ∧
     (getNode (ns_add (ns_add w9_heap 0 1) 0 2) 2).parent = some 0 ∧
     (getNode (ns_add (ns_add w9_heap 0 1) 0 2) 1).parent = some 0) :=
  ⟨by decide, by decide, ns_add_spec w9_heap 0 1 2 "x" (by decide) (by decide)⟩

theorem ns_get_ns_add_self_name (h : Heap) (s c : Nat) :
    ns_get (ns_add h s c) s ((getNode h c).name) = some c := by
  by_cases hsc : s = c
  · subst hsc
    rw [ns_get, getNode_ns_add_self_eq]
    exact dictGet_dictSet_self _ _ _
  · rw [ns_get, getNode_ns_add_self _ _ _ hsc]
    exact dictGet_dictSet_self _ _ _

/-- After any template_call the memo of the Template maps the key to the
returned Function. -/
theorem template_call_memo (tmpl : Heap → Heap × Nat) (h : Heap) (selfId : Nat)
    (key : TemplateKey) :
    dictGet (getNode (template_call tmpl h selfId key).1 selfId).memo key =
      some (template_call tmpl h selfId key).2.1 := by
  unfold template_call
  cases hg : dictGet (getNode h selfId).memo key with
  | some fid => simpa [hg] using hg
  | none =>
      simp only [hg]
      rw [ns_add_memo, getNode_setNode_self]
      exact dictGet_dictSet_self _ _ _

/-- C3: Template.__call__ memoizes on the exact ordered binding key.  Two
consecutive calls with the same key return the identical Function id, the
second call never invokes the callable and leaves the heap unchanged; a hit
returns the stored Function without invoking; on a miss the callable is
invoked, the produced Function is ended, stored under the key, and bound as
a child of the Template under its name. -/
theorem template_call_spec (tmpl : Heap → Heap × Nat) (h : Heap) (selfId : Nat)
    (key : TemplateKey) :
    (template_call tmpl (template_call tmpl h selfId key).1 selfId key).2.1 =
      (template_call tmpl h selfId key).2.1 ∧
    (template_call tmpl (template_call tmpl h selfId key).1 selfId key).2.2 =
      false ∧
    (template_call tmpl (template_call tmpl h selfId key).1 selfId key).1 =
      (template_call tmpl h selfId key).1 ∧
    (∀ f, dictGet (getNode h selfId).memo key = some f →
      template_call tmpl h selfId key = (h, f, false)) ∧
    (dictGet (getNode h selfId).memo key = none →
      (template_call tmpl h selfId key).2.2 = true ∧
      (getNode (template_call tmpl h selfId key).1
        (template_call tmpl h selfId key).2.1).was_ended = true ∧
      dictGet (getNode (template_call tmpl h selfId key).1 selfId).memo key =
        some (template_call tmpl h selfId key).2.1 ∧
      ns_get (template_call tmpl h selfId key).1 selfId
        ((getNode (template_call tmpl h selfId key).1
          (template_call tmpl h selfId key).2.1).name) =
        some (template_call tmpl h selfId key).2.1) := by
  have hm := template_call_memo tmpl h selfId key
  have hsecond : template_call tmpl (template_call tmpl h selfId key).1 selfId key =
      ((template_call tmpl h selfId key).1,
       (template_call tmpl h selfId key).2.1, false) := by
    generalize (template_call tmpl h selfId key) = r at hm
    unfold template_call
    rw [hm]
  refine ⟨by rw [hsecond], by rw [hsecond], by rw [hsecond], ?_, ?_⟩
  · intro f hf
    unfold template_call
    rw [hf]
  · intro hg
    have hr : template_call tmpl h selfId key =
        (ns_add
          (setNode (end_function (tmpl h).1 (tmpl h).2) selfId
            { getNode (end_function (tmpl h).1 (tmpl h).2) selfId with
                memo :=
                  dictSet (getNode (end_function (tmpl h).1 (tmpl h).2) selfId).memo
                    key (tmpl h).2 })
          selfId (tmpl h).2,
         (tmpl h).2, true) := by
      unfold template_call
      rw [hg]
    have hpres : ∀ (H : Heap) (M : List (TemplateKey × Nat)) (j : Nat),
        (getNode (setNode H selfId { getNode H selfId with memo := M }) j).was_ended =
          (getNode H j).was_ended := by
      intro H M j
      by_cases hj : j = selfId
      · subst hj; simp
      · rw [getNode_setNode_ne _ _ _ _ hj]
    have hpresn : ∀ (H : Heap) (M : List (TemplateKey × Nat)) (j : Nat),
        (getNode (setNode H selfId { getNode H selfId with memo := M }) j).name =
          (getNode H j).name := by
      intro H M j
      by_cases hj : j = selfId
      · subst hj; simp
      · rw [getNode_setNode_ne _ _ _ _ hj]
    refine ⟨by rw [hr], ?_, hm, ?_⟩
    · rw [hr]
      simp only [ns_add_was_ended, hpres]
      exact (end_function_spec (tmpl h).1 (tmpl h).2).1
    · rw [hr]
      simp only [ns_add_name, hpresn]
      rw [show (getNode (end_function (tmpl h).1 (tmpl h).2) (tmpl h).2).name =
          (getNode
            (setNode (end_function (tmpl h).1 (tmpl h).2) selfId
              { getNode (end_function (tmpl h).1 (tmpl h).2) selfId with
                  memo :=
                    dictSet
                      (getNode (end_function (tmpl h).1 (tmpl h).2) selfId).memo
                      key (tmpl h).2 })
            (tmpl h).2).name from (hpresn _ _ _).symm]
      exact ns_get_ns_add_self_name _ selfId (tmpl h).2

/-- Heap for the C3 witness: a single Template node t at id 0. -/
def w3_heap : Heap := (alloc emptyHeap { kind := NodeKind.Template, name := "t" }).1

/-- Template callable for the C3 witness: builds a fresh Function tf. -/
def w3_tmpl : Heap → Heap × Nat := fun hh => function_init hh ("tf") [] [] ("")

/-- C3 witness: the memoizer spec at a concrete Template, callable and key. -/
theorem template_call_spec_witness :
    dictGet (getNode w3_heap 0).memo [("n", 3)] = none ∧
    ((template_call w3_tmpl (template_call w3_tmpl w3_heap 0 [("n", 3)]).1 0
        [("n", 3)]).2.1 =
      (template_call w3_tmpl w3_heap 0 [("n", 3)]).2.1 ∧
     (template_call w3_tmpl (template_call w3_tmpl w3_heap 0 [("n", 3)]).1 0
        [("n", 3)]).2.2 = false ∧
     (template_call w3_tmpl (template_call w3_tmpl w3_heap 0 [("n", 3)]).1 0
        [("n", 3)]).1 =
      (template_call w3_tmpl w3_heap 0 [("n", 3)]).1 ∧
     (∀ f, dictGet (getNode w3_heap 0).memo [("n", 3)] = some f →
       template_call w3_tmpl w3_heap 0 [("n", 3)] = (w3_heap, f, false)) ∧
     (dictGet (getNode w3_heap 0).memo [("n", 3)] = none →
       (template_call w3_tmpl w3_heap 0 [("n", 3)]).2.2 = true ∧
       (getNode (template_call w3_tmpl w3_heap 0 [("n", 3)]).1
         (template_call w3_tmpl w3_heap 0 [("n", 3)]).2.1).was_ended = true ∧
       dictGet (getNode (template_call w3_tmpl w3_heap 0 [("n", 3)]).1 0).memo
           [("n", 3)] =
         some (template_call w3_tmpl w3_heap 0 [("n", 3)]).2.1 ∧
       ns_get (template_call w3_tmpl w3_heap 0 [("n", 3)]).1 0
           ((getNode (template_call w3_tmpl w3_heap 0 [("n", 3)]).1
             (template_call w3_tmpl w3_heap 0 [("n", 3)]).2.1).name) =
         some (template_call w3_tmpl w3_heap 0 [("n", 3)]).2.1)) :=
  ⟨by decide, template_call_spec w3_tmpl w3_heap 0 [("n", 3)]⟩


/-- C2: on a Function not yet ended, c_if succeeds and returns the fresh
then-branch Function (id h.size); it appends exactly the two dispatch
commands to the unit that was the current unit before the call; the
then-branch and the fresh continuation unit (id h.size + 2) are distinct
objects; the then-branch continuation is wired to the continuation unit; the
cursor of the enclosing Function advances to the continuation unit; and
ending the then-branch wires the continuation of its final unit to the
continuation unit. -/
theorem c_if_spec (h : Heap) (selfId : Nat) (cond : Condition)
    (hs : selfId < h.size)
    (hu : (getNode h selfId).current_mcfunction < h.size)
    (he : (getNode h selfId).was_ended = false) :
    ∃ hh, c_if h selfId cond = some (hh, h.size) ∧
      (getNode hh ((getNode h selfId).current_mcfunction)).commands =
        (getNode h ((getNode h selfId).current_mcfunction)).commands ++
          [Command.composed ("execute if " ++ cond.str ++ " run") (h.size + 1),
           Command.composed ("execute unless " ++ cond.str ++ " run") (h.size + 2)] ∧
      h.size ≠ h.size + 2 ∧
      (getNode hh h.size).continuation = some (h.size + 2) ∧
      (getNode hh selfId).current_mcfunction = h.size + 2 ∧
      (getNode (end_function hh h.size)
        ((getNode hh h.size).current_mcfunction)).continuation = some (h.size + 2) := by
  have hns : selfId ≠ h.size := by omega
  have hns1 : selfId ≠ h.size + 1 := by omega
  have hns2 : selfId ≠ h.size + 2 := by omega
  have F1 : getNode (create_function h selfId
      ("if" ++ toString (getNode h selfId).children.length) [] [] ("")).1 selfId =
      { getNode h selfId with
          children := dictSet (getNode h selfId).children
            ("if" ++ toString (getNode h selfId).children.length) h.size } :=
    getNode_create_function_self h selfId _ [] [] ("") hns hns1
  have F2 : getNode (create_mcfunction
      (create_function h selfId
        ("if" ++ toString (getNode h selfId).children.length) [] [] ("")).1 selfId
      ("if-continue" ++ toString (getNode (create_function h selfId
        ("if" ++ toString (getNode h selfId).children.length) [] [] ("")).1
          selfId).children.length) [] ("")).1 selfId =
      { getNode (create_function h selfId
          ("if" ++ toString (getNode h selfId).children.length) [] [] ("")).1 selfId
          with
          children := dictSet
            (getNode (create_function h selfId
              ("if" ++ toString (getNode h selfId).children.length) [] [] ("")).1
                selfId).children
            ("if-continue" ++ toString (getNode (create_function h selfId
              ("if" ++ toString (getNode h selfId).children.length) [] [] ("")).1
                selfId).children.length)
            (h.size + 2) } := by
    rw [getNode_create_mcfunction_self _ _ _ _ _
      (by simp only [create_function_size]; omega)]
    simp only [create_function_size]
  have hwe2 : (getNode (create_mcfunction
      (create_function h selfId
        ("if" ++ toString (getNode h selfId).children.length) [] [] ("")).1 selfId
      ("if-continue" ++ toString (getNode (create_function h selfId
        ("if" ++ toString (getNode h selfId).children.length) [] [] ("")).1
          selfId).children.length) [] ("")).1 selfId).was_ended = false := by
    rw [F2, F1]
    exact he
  have hcur2 : (getNode (create_mcfunction
      (create_function h selfId
        ("if" ++ toString (getNode h selfId).children.length) [] [] ("")).1 selfId
      ("if-continue" ++ toString (getNode (create_function h selfId
        ("if" ++ toString (getNode h selfId).children.length) [] [] ("")).1
          selfId).children.length) [] ("")).1 selfId).current_mcfunction =
      (getNode h selfId).current_mcfunction := by
    rw [F2, F1]
  have F3 : getNode (create_mcfunction
      (create_function h selfId
        ("if" ++ toString (getNode h selfId).children.length) [] [] ("")).1 selfId
      ("if-continue" ++ toString (getNode (create_function h selfId
        ("if" ++ toString (getNode h selfId).children.length) [] [] ("")).1
          selfId).children.length) [] ("")).1 h.size =
      { kind := NodeKind.Function,
        name := "if" ++ toString (getNode h selfId).children.length, args := [],
        children := [("if" ++ toString (getNode h selfId).children.length,
          h.size + 1)],
        continuation := none, entry_point := h.size + 1,
        current_mcfunction := h.size + 1, was_ended := false,
        parent := some selfId } := by
    rw [getNode_create_mcfunction_other _ _ _ _ _ _ (Ne.symm hns)
        (by simp only [create_function_size]; omega),
      getNode_create_function_new h selfId _ [] [] ("") hns]
  have hentry : (getNode (create_mcfunction
      (create_function h selfId
        ("if" ++ toString (getNode h selfId).children.length) [] [] ("")).1 selfId
      ("if-continue" ++ toString (getNode (create_function h selfId
        ("if" ++ toString (getNode h selfId).children.length) [] [] ("")).1
          selfId).children.length) [] ("")).1 h.size).entry_point = h.size + 1 := by
    rw [F3]
  obtain ⟨h3, hadd, hcmds, hframe⟩ := (add_command_spec (create_mcfunction
      (create_function h selfId
        ("if" ++ toString (getNode h selfId).children.length) [] [] ("")).1 selfId
      ("if-continue" ++ toString (getNode (create_function h selfId
        ("if" ++ toString (getNode h selfId).children.length) [] [] ("")).1
          selfId).children.length) [] ("")).1 selfId
      [Command.composed ("execute if " ++ cond.str ++ " run") (h.size + 1),
       Command.composed ("execute unless " ++ cond.str ++ " run") (h.size + 2)]).2
    hwe2
  have hcife : c_if h selfId cond = some
      (setNode (setNode h3 h.size
          { getNode h3 h.size with continuation := some (h.size + 2) }) selfId
        { getNode (setNode h3 h.size
            { getNode h3 h.size with continuation := some (h.size + 2) }) selfId
            with current_mcfunction := h.size + 2 },
       h.size) := by
    simp only [c_if, create_function_snd, create_mcfunction_snd, create_function_size, hentry]
    rw [hadd]
  rw [hcur2] at hcmds hframe
  have hcu : (getNode (create_mcfunction
      (create_function h selfId
        ("if" ++ toString (getNode h selfId).children.length) [] [] ("")).1 selfId
      ("if-continue" ++ toString (getNode (create_function h selfId
        ("if" ++ toString (getNode h selfId).children.length) [] [] ("")).1
          selfId).children.length) [] ("")).1
      ((getNode h selfId).current_mcfunction)).commands =
      (getNode h ((getNode h selfId).current_mcfunction)).commands := by
    by_cases husel : (getNode h selfId).current_mcfunction = selfId
    · rw [husel, F2, F1]
    · rw [getNode_create_mcfunction_other _ _ _ _ _ _ husel
        (by simp only [create_function_size]; omega),
        getNode_create_function_other _ _ _ _ _ _ _ husel (by omega) (by omega)]
  have hcomm5 : forall j, j ≠ h.size →
      (getNode (setNode (setNode h3 h.size
          { getNode h3 h.size with continuation := some (h.size + 2) }) selfId
        { getNode (setNode h3 h.size
            { getNode h3 h.size with continuation := some (h.size + 2) }) selfId
            with current_mcfunction := h.size + 2 }) j).commands =
        (getNode h3 j).commands := by
    intro j hj
    by_cases hjs : j = selfId
    · subst hjs
      simp [getNode_setNode_ne _ _ _ _ hns]
    · rw [getNode_setNode_ne _ _ _ _ hjs, getNode_setNode_ne _ _ _ _ hj]
  refine ⟨_, hcife, ?_, by omega, ?_, ?_, ?_⟩
  · rw [hcomm5 _ (by omega), hcmds, hcu]
  · simp [getNode_setNode_ne _ _ _ _ (Ne.symm hns)]
  · simp
  · have h3top : getNode h3 h.size =
        { kind := NodeKind.Function,
          name := "if" ++ toString (getNode h selfId).children.length, args := [],
          children := [("if" ++ toString (getNode h selfId).children.length,
            h.size + 1)],
          continuation := none, entry_point := h.size + 1,
          current_mcfunction := h.size + 1, was_ended := false,
          parent := some selfId } := by
      rw [hframe h.size (by omega), F3]
    have hn5eq : getNode (setNode (setNode h3 h.size
        { getNode h3 h.size with continuation := some (h.size + 2) }) selfId
        { getNode (setNode h3 h.size
            { getNode h3 h.size with continuation := some (h.size + 2) }) selfId
            with current_mcfunction := h.size + 2 }) h.size =
        { getNode h3 h.size with continuation := some (h.size + 2) } := by
      rw [getNode_setNode_ne _ _ _ _ (Ne.symm hns), getNode_setNode_self]
    have hwe5 : (getNode (setNode (setNode h3 h.size
        { getNode h3 h.size with continuation := some (h.size + 2) }) selfId
        { getNode (setNode h3 h.size
            { getNode h3 h.size with continuation := some (h.size + 2) }) selfId
            with current_mcfunction := h.size + 2 }) h.size).was_ended = false := by
      rw [hn5eq, h3top]
    have hcont5 : (getNode (setNode (setNode h3 h.size
        { getNode h3 h.size with continuation := some (h.size + 2) }) selfId
        { getNode (setNode h3 h.size
            { getNode h3 h.size with continuation := some (h.size + 2) }) selfId
            with current_mcfunction := h.size + 2 }) h.size).continuation =
        some (h.size + 2) := by
      rw [hn5eq]
    have hfin := (end_function_spec _ h.size).2.2.2 hwe5
    rw [hcont5] at hfin
    exact hfin


/-- Heap for the C2 witness: root namespace ns (id 0) holding Function f
(id 1) with entry unit (id 2). -/
def w2_heap : Heap :=
  (create_function (new_namespace emptyHeap ("ns")).1 0 ("f") [] [] ("")).1

/-- C2 witness: the c_if spec instantiated at the concrete Function f. -/
theorem c_if_spec_witness :
    (1 < w2_heap.size ∧ (getNode w2_heap 1).current_mcfunction < w2_heap.size ∧
      (getNode w2_heap 1).was_ended = false) ∧
    (∃ hh, c_if w2_heap 1 ⟨"true"⟩ = some (hh, w2_heap.size) ∧
      (getNode hh ((getNode w2_heap 1).current_mcfunction)).commands =
        (getNode w2_heap ((getNode w2_heap 1).current_mcfunction)).commands ++
          [Command.composed ("execute if " ++ Condition.str ⟨"true"⟩ ++ " run")
            (w2_heap.size + 1),
           Command.composed ("execute unless " ++ Condition.str ⟨"true"⟩ ++ " run")
            (w2_heap.size + 2)] ∧
      w2_heap.size ≠ w2_heap.size + 2 ∧
      (getNode hh w2_heap.size).continuation = some (w2_heap.size + 2) ∧
      (getNode hh 1).current_mcfunction = w2_heap.size + 2 ∧
      (getNode (end_function hh w2_heap.size)
        ((getNode hh w2_heap.size).current_mcfunction)).continuation =
          some (w2_heap.size + 2)) :=
  ⟨⟨by decide, by decide, by decide⟩,
    c_if_spec w2_heap 1 ⟨"true"⟩ (by decide) (by decide) (by decide)⟩

theorem first_parent_eq (f : Nat → Option (Option Nat)) (ps : List Nat)
    (hf : ∀ p ∈ ps, f p ≠ none) :
    first_parent f ps = some (ps.findSome? (fun p => (f p).getD none)) := by
  induction ps with
  | nil => simp [first_parent, List.findSome?]
  | cons p rest ih =>
      have hp := hf p (by simp)
      cases hfp : f p with
      | none => exact absurd hfp hp
      | some r =>
          cases r with
          | none =>
              rw [first_parent, hfp]
              rw [List.findSome?_cons]
              simp only [hfp, Option.getD_some]
              exact ih (fun q hq => hf q (by simp [hq]))
          | some v =>
              rw [first_parent, hfp, List.findSome?_cons]
              simp [hfp]

/-- C7: Class.get returns the direct child when bound; otherwise it consults
the declared parents in declaration order, each with its own get, and the
result is the first parent lookup that succeeds; when the direct lookup and
every parent lookup miss, the KeyError propagates (the inner none). -/
theorem class_get_spec (h : Heap) (fuel : Nat) (c : Nat) (s : String)
    (hk : (getNode h c).kind = NodeKind.Class)
    (hfuel : ∀ p ∈ (getNode h c).inherits_from, node_get h fuel p s ≠ none) :
    node_get h (fuel + 1) c s =
      some (match ns_get h c s with
            | some v => some v
            | none => (getNode h c).inherits_from.findSome?
                (fun p => (node_get h fuel p s).getD none)) := by
  rw [node_get, if_pos hk]
  cases hg : ns_get h c s with
  | some v => simp
  | none => simp [first_parent_eq _ _ hfuel]

/-- Heap for the C7 witness: Class B (id 0) binding m to 7, Class A (id 1)
inheriting from B and binding nothing itself. -/
def w7_heap : Heap :=
  (alloc (alloc emptyHeap
    { kind := NodeKind.Class, name := "B", children := [("m", 7)] }).1
    { kind := NodeKind.Class, name := "A", inherits_from := [0] }).1

/-- C7 witness: the lookup spec at Class A inheriting from B, with the
symbol m defined only on B; the lookup returns the binding of B. -/
theorem class_get_spec_witness :
    ((getNode w7_heap 1).kind = NodeKind.Class ∧
     (∀ p ∈ (getNode w7_heap 1).inherits_from, node_get w7_heap 2 p "m" ≠ none)) ∧
    node_get w7_heap 3 1 "m" =
      some (match ns_get w7_heap 1 "m" with
            | some v => some v
            | none => (getNode w7_heap 1).inherits_from.findSome?
                (fun p => (node_get w7_heap 2 p "m").getD none)) ∧
    node_get w7_heap 3 1 "m" = some (some 7) ∧
    ns_get w7_heap 1 "m" = none ∧ ns_get w7_heap 0 "m" = some 7 :=
  ⟨⟨by decide, by decide⟩, class_get_spec w7_heap 2 1 "m" (by decide) (by decide),
    by decide, by decide, by decide⟩

/-- Proof-infrastructure predicate: heap hb equals heap ha except that the
commands of unit cm grew by exactly add. -/
def extendsAt (ha hb : Heap) (cm : Nat) (add : List Command) : Prop :=
  ∀ j, getNode hb j =
    if j = cm then
      { getNode ha cm with commands := (getNode ha cm).commands ++ add }
    else getNode ha j

theorem extendsAt_trans {ha hb hc : Heap} {cm : Nat} {a b : List Command}
    (e1 : extendsAt ha hb cm a) (e2 : extendsAt hb hc cm b) :
    extendsAt ha hc cm (a ++ b) := by
  intro j
  rw [e2 j]
  by_cases hj : j = cm
  · subst hj
    rw [if_pos rfl, if_pos rfl, e1 j, if_pos rfl]
    simp
  · rw [if_neg hj, if_neg hj, e1 j, if_neg hj]

theorem extendsAt_nil (ha : Heap) (cm : Nat) : extendsAt ha ha cm [] := by
  intro j
  by_cases hj : j = cm
  · subst hj; rw [if_pos rfl]; simp
  · rw [if_neg hj]

theorem extendsAt_was_ended {ha hb : Heap} {cm : Nat} {a : List Command}
    (e : extendsAt ha hb cm a) (j : Nat) :
    (getNode hb j).was_ended = (getNode ha j).was_ended := by
  rw [e j]; by_cases hj : j = cm
  · subst hj; rw [if_pos rfl]
  · rw [if_neg hj]

theorem extendsAt_current {ha hb : Heap} {cm : Nat} {a : List Command}
    (e : extendsAt ha hb cm a) (j : Nat) :
    (getNode hb j).current_mcfunction = (getNode ha j).current_mcfunction := by
  rw [e j]; by_cases hj : j = cm
  · subst hj; rw [if_pos rfl]
  · rw [if_neg hj]

theorem extendsAt_entry {ha hb : Heap} {cm : Nat} {a : List Command}
    (e : extendsAt ha hb cm a) (j : Nat) :
    (getNode hb j).entry_point = (getNode ha j).entry_point := by
  rw [e j]; by_cases hj : j = cm
  · subst hj; rw [if_pos rfl]
  · rw [if_neg hj]

theorem add_command_some (h : Heap) (selfId : Nat) (cmds : List Command)
    (he : (getNode h selfId).was_ended = false) :
    ∃ hb, add_command h selfId cmds = some hb ∧
      extendsAt h hb ((getNode h selfId).current_mcfunction) cmds := by
  refine ⟨cmds.foldl
      (fun hh c => mcf_add_command hh (getNode hh selfId).current_mcfunction c) h,
    by simp [add_command, he], ?_⟩
  intro j
  exact add_command_foldl cmds h selfId j

theorem c_call_single_extends (h : Heap) (selfId callee : Nat) (arg : Option Expr)
    (he : (getNode h selfId).was_ended = false) :
    ∃ hb, c_call_single h selfId callee arg = some hb ∧
      extendsAt h hb ((getNode h selfId).current_mcfunction)
        ([Command.commentCalling callee arg.isSome 0] ++
         (match arg with
          | some a => [Command.setStdArg a]
          | none => []) ++
         [Command.functionCall (getNode h callee).entry_point]) := by
  cases arg with
  | none =>
      obtain ⟨h1, eq1, e1⟩ := add_command_some h selfId
        [Command.commentCalling callee false 0] he
      have he1 : (getNode h1 selfId).was_ended = false := by
        rw [extendsAt_was_ended e1]; exact he
      have hcm1 : (getNode h1 selfId).current_mcfunction =
          (getNode h selfId).current_mcfunction := extendsAt_current e1 selfId
      obtain ⟨h2, eq2, e2⟩ := add_command_some h1 selfId
        [Command.functionCall (getNode h1 callee).entry_point] he1
      rw [hcm1] at e2
      refine ⟨h2, ?_, ?_⟩
      · simp only [c_call_single, Option.isSome_none]
        rw [eq1]
        show add_command h1 selfId
          [Command.functionCall (getNode h1 callee).entry_point] = some h2
        exact eq2
      · have hent : (getNode h1 callee).entry_point =
            (getNode h callee).entry_point := extendsAt_entry e1 callee
        rw [hent] at e2
        simpa using extendsAt_trans e1 e2
  | some a =>
      obtain ⟨h1, eq1, e1⟩ := add_command_some h selfId
        [Command.commentCalling callee true 0] he
      have he1 : (getNode h1 selfId).was_ended = false := by
        rw [extendsAt_was_ended e1]; exact he
      have hcm1 : (getNode h1 selfId).current_mcfunction =
          (getNode h selfId).current_mcfunction := extendsAt_current e1 selfId
      obtain ⟨h2, eq2, e2⟩ := add_command_some h1 selfId [Command.setStdArg a] he1
      have he2 : (getNode h2 selfId).was_ended = false := by
        rw [extendsAt_was_ended e2]; exact he1
      have hcm2 : (getNode h2 selfId).current_mcfunction =
          (getNode h selfId).current_mcfunction := by
        rw [extendsAt_current e2]; exact hcm1
      obtain ⟨h3, eq3, e3⟩ := add_command_some h2 selfId
        [Command.functionCall (getNode h2 callee).entry_point] he2
      rw [hcm1] at e2
      rw [hcm2] at e3
      refine ⟨h3, ?_, ?_⟩
      · simp only [c_call_single, Option.isSome_some]
        rw [eq1]
        show (add_command h1 selfId [Command.setStdArg a] >>= fun y =>
          add_command y selfId
            [Command.functionCall (getNode y callee).entry_point]) = some h3
        rw [eq2]
        show add_command h2 selfId
          [Command.functionCall (getNode h2 callee).entry_point] = some h3
        exact eq3
      · have hent : (getNode h2 callee).entry_point =
            (getNode h callee).entry_point := by
          rw [extendsAt_entry e2, extendsAt_entry e1]
        rw [hent] at e3
        simpa using extendsAt_trans (extendsAt_trans e1 e2) e3

theorem push_fold_extends (varargs : List Expr) :
    ∀ (h : Heap) (selfId pushFn : Nat),
    (getNode h selfId).was_ended = false →
    ∃ hb, varargs.foldlM
        (fun hh v => c_call_single hh selfId pushFn (some v)) h = some hb ∧
      extendsAt h hb ((getNode h selfId).current_mcfunction)
        (varargs.flatMap (fun v =>
          [Command.commentCalling pushFn true 0, Command.setStdArg v,
           Command.functionCall (getNode h pushFn).entry_point])) := by
  induction varargs with
  | nil =>
      intro h selfId pushFn he
      exact ⟨h, by simp, by simpa using extendsAt_nil h _⟩
  | cons v rest ih =>
      intro h selfId pushFn he
      obtain ⟨h1, eq1, e1⟩ := c_call_single_extends h selfId pushFn (some v) he
      have he1 : (getNode h1 selfId).was_ended = false := by
        rw [extendsAt_was_ended e1]; exact he
      obtain ⟨h2, eq2, e2⟩ := ih h1 selfId pushFn he1
      rw [extendsAt_current e1 selfId] at e2
      have hent : (getNode h1 pushFn).entry_point =
          (getNode h pushFn).entry_point := extendsAt_entry e1 pushFn
      rw [hent] at e2
      refine ⟨h2, ?_, ?_⟩
      · rw [List.foldlM_cons, eq1]
        show rest.foldlM (fun hh v => c_call_single hh selfId pushFn (some v)) h1 =
          some h2
        exact eq2
      · have := extendsAt_trans e1 e2
        simpa using this

/-- C8: on a Function not yet ended, c_call_function succeeds, and the
commands it emits into the current unit are, in order: the call comment,
then one push block per vararg in call-site order, each push block being the
emission of the recursive single-argument call to the stack-push routine
(comment, STD_ARG assignment of that vararg, call to the push routine entry
unit), then the STD_ARG assignment when a scalar argument is given, and
finally the unconditional FunctionCall to the callee entry unit, which is
the last emitted command; no other unit changes, and the recursive call with
a single scalar argument and no varargs is the per-vararg push emission. -/
theorem c_call_function_spec (h : Heap) (selfId callee : Nat) (arg : Option Expr)
    (varargs : List Expr) (pushFn : Nat)
    (he : (getNode h selfId).was_ended = false) :
    ∃ hb, c_call_function h selfId callee arg varargs pushFn = some hb ∧
      (getNode hb ((getNode h selfId).current_mcfunction)).commands =
        (getNode h ((getNode h selfId).current_mcfunction)).commands ++
          ([Command.commentCalling callee arg.isSome varargs.length] ++
           varargs.flatMap (fun v =>
             [Command.commentCalling pushFn true 0, Command.setStdArg v,
              Command.functionCall (getNode h pushFn).entry_point]) ++
           (match arg with
            | some a => [Command.setStdArg a]
            | none => []) ++
           [Command.functionCall (getNode h callee).entry_point]) ∧
      (∀ j, j ≠ (getNode h selfId).current_mcfunction →
        getNode hb j = getNode h j) ∧
      (∀ v : Expr, c_call_function h selfId pushFn (some v) [] pushFn =
        c_call_single h selfId pushFn (some v)) ∧
      (getNode hb ((getNode h selfId).current_mcfunction)).commands.getLast? =
        some (Command.functionCall (getNode h callee).entry_point) := by
  cases arg with
  | none =>
      obtain ⟨h1, eqc, ec⟩ := add_command_some h selfId
        [Command.commentCalling callee false varargs.length] he
      have he1 : (getNode h1 selfId).was_ended = false := by
        rw [extendsAt_was_ended ec]; exact he
      obtain ⟨h2, eqp, ep⟩ := push_fold_extends varargs h1 selfId pushFn he1
      rw [extendsAt_current ec selfId, extendsAt_entry ec pushFn] at ep
      have he2 : (getNode h2 selfId).was_ended = false := by
        rw [extendsAt_was_ended ep]; exact he1
      have hcm2 : (getNode h2 selfId).current_mcfunction =
          (getNode h selfId).current_mcfunction := by
        rw [extendsAt_current ep, extendsAt_current ec]
      obtain ⟨h3, eqf, ef⟩ := add_command_some h2 selfId
        [Command.functionCall (getNode h2 callee).entry_point] he2
      rw [hcm2] at ef
      have hent2 : (getNode h2 callee).entry_point =
          (getNode h callee).entry_point := by
        rw [extendsAt_entry ep, extendsAt_entry ec]
      have etotal := extendsAt_trans (extendsAt_trans ec ep) ef
      rw [hent2] at etotal
      have hcmds := etotal ((getNode h selfId).current_mcfunction)
      rw [if_pos rfl] at hcmds
      refine ⟨h3, ?_, ?_, ?_, fun v => rfl, ?_⟩
      · simp only [c_call_function, Option.isSome_none]
        rw [eqc]
        show (varargs.foldlM
            (fun hh v => c_call_single hh selfId pushFn (some v)) h1 >>= fun y =>
          add_command y selfId
            [Command.functionCall (getNode y callee).entry_point]) = some h3
        rw [eqp]
        show add_command h2 selfId
          [Command.functionCall (getNode h2 callee).entry_point] = some h3
        exact eqf
      · rw [hcmds]
        simp
      · intro j hj
        have := etotal j
        rw [if_neg hj] at this
        exact this
      · rw [hcmds, List.getLast?_append_of_ne_nil _ (by simp),
          List.getLast?_append_of_ne_nil _ (by simp)]
        rfl
  | some a =>
      obtain ⟨h1, eqc, ec⟩ := add_command_some h selfId
        [Command.commentCalling callee true varargs.length] he
      have he1 : (getNode h1 selfId).was_ended = false := by
        rw [extendsAt_was_ended ec]; exact he
      obtain ⟨h2, eqp, ep⟩ := push_fold_extends varargs h1 selfId pushFn he1
      rw [extendsAt_current ec selfId, extendsAt_entry ec pushFn] at ep
      have he2 : (getNode h2 selfId).was_ended = false := by
        rw [extendsAt_was_ended ep]; exact he1
      have hcm2 : (getNode h2 selfId).current_mcfunction =
          (getNode h selfId).current_mcfunction := by
        rw [extendsAt_current ep, extendsAt_current ec]
      obtain ⟨h3, eqa, ea⟩ := add_command_some h2 selfId [Command.setStdArg a] he2
      rw [hcm2] at ea
      have he3 : (getNode h3 selfId).was_ended = false := by
        rw [extendsAt_was_ended ea]; exact he2
      have hcm3 : (getNode h3 selfId).current_mcfunction =
          (getNode h selfId).current_mcfunction := by
        rw [extendsAt_current ea, hcm2]
      obtain ⟨h4, eqf, ef⟩ := add_command_some h3 selfId
        [Command.functionCall (getNode h3 callee).entry_point] he3
      rw [hcm3] at ef
      have hent3 : (getNode h3 callee).entry_point =
          (getNode h callee).entry_point := by
        rw [extendsAt_entry ea, extendsAt_entry ep, extendsAt_entry ec]
      have etotal :=
        extendsAt_trans (extendsAt_trans (extendsAt_trans ec ep) ea) ef
      rw [hent3] at etotal
      have hcmds := etotal ((getNode h selfId).current_mcfunction)
      rw [if_pos rfl] at hcmds
      refine ⟨h4, ?_, ?_, ?_, fun v => rfl, ?_⟩
      · simp only [c_call_function, Option.isSome_some]
        rw [eqc]
        show (varargs.foldlM
            (fun hh v => c_call_single hh selfId pushFn (some v)) h1 >>= fun y =>
          (add_command y selfId [Command.setStdArg a] >>= fun z =>
            add_command z selfId
              [Command.functionCall (getNode z callee).entry_point])) = some h4
        rw [eqp]
        show (add_command h2 selfId [Command.setStdArg a] >>= fun z =>
          add_command z selfId
            [Command.functionCall (getNode z callee).entry_point]) = some h4
        rw [eqa]
        show add_command h3 selfId
          [Command.functionCall (getNode h3 callee).entry_point] = some h4
        exact eqf
      · rw [hcmds]
        simp
      · intro j hj
        have := etotal j
        rw [if_neg hj] at this
        exact this
      · rw [hcmds, List.getLast?_append_of_ne_nil _ (by simp),
          List.getLast?_append_of_ne_nil _ (by simp)]
        rfl

/-- Heap for the C8 witness: namespace ns (0) with Functions f (1, entry 2),
g (3, entry 4) and p (5, entry 6), none ended. -/
def w8_heap : Heap :=
  (create_function (create_function (create_function
    (new_namespace emptyHeap ("ns")).1 0 ("f") [] [] ("")).1
    0 ("g") [] [] ("")).1 0 ("p") [] [] ("")).1

/-- C8 witness: the calling-convention spec at f calling g with one scalar
argument and two varargs pushed through p. -/
theorem c_call_function_spec_witness :
    (getNode w8_heap 1).was_ended = false ∧
    (∃ hb, c_call_function w8_heap 1 3 (some 42) [7, 8] 5 = some hb ∧
      (getNode hb ((getNode w8_heap 1).current_mcfunction)).commands =
        (getNode w8_heap ((getNode w8_heap 1).current_mcfunction)).commands ++
          ([Command.commentCalling 3 true 2] ++
           [7, 8].flatMap (fun v =>
             [Command.commentCalling 5 true 0, Command.setStdArg v,
              Command.functionCall (getNode w8_heap 5).entry_point]) ++
           [Command.setStdArg 42] ++
           [Command.functionCall (getNode w8_heap 3).entry_point]) ∧
      (∀ j, j ≠ (getNode w8_heap 1).current_mcfunction →
        getNode hb j = getNode w8_heap j) ∧
      (∀ v : Expr, c_call_function w8_heap 1 5 (some v) [] 5 =
        c_call_single w8_heap 1 5 (some v)) ∧
      (getNode hb ((getNode w8_heap 1).current_mcfunction)).commands.getLast? =
        some (Command.functionCall (getNode w8_heap 3).entry_point)) :=
  ⟨by decide, c_call_function_spec w8_heap 1 3 (some 42) [7, 8] 5 (by decide)⟩

-- Export-pass infrastructure.

theorem dictGet_mem {α β : Type} [DecidableEq α] (m : List (α × β)) (k : α)
    (v : β) (hget : dictGet m k = some v) : (k, v) ∈ m := by
  induction m with
  | nil => simp [dictGet] at hget
  | cons kv rest ih =>
      obtain ⟨k0, v0⟩ := kv
      by_cases h0 : k0 = k
      · subst h0
        simp [dictGet] at hget
        simp [hget]
      · simp [dictGet, h0] at hget
        simp [ih hget]

theorem mem_dictSet {α β : Type} [DecidableEq α] (m : List (α × β)) (k k' : α)
    (v v' : β) (hmem : (k', v') ∈ dictSet m k v) :
    (k', v') ∈ m ∨ (k' = k ∧ v' = v) := by
  induction m with
  | nil =>
      simp [dictSet] at hmem
      exact Or.inr hmem
  | cons kv rest ih =>
      obtain ⟨k0, v0⟩ := kv
      by_cases h0 : k0 = k
      · subst h0
        simp [dictSet] at hmem
        rcases hmem with h | h
        · exact Or.inr h
        · exact Or.inl (by simp [h])
      · simp [dictSet, h0] at hmem
        rcases hmem with h | h
        · exact Or.inl (by simp [h])
        · rcases ih h with h' | h'
          · exact Or.inl (by simp [h'])
          · exact Or.inr h'

theorem mem_merge_sub (acc sub : PathMap) (p : List String) (u : Nat)
    (hmem : (p, u) ∈ merge_sub acc sub) : (p, u) ∈ acc ∨ (p, u) ∈ sub := by
  induction sub generalizing acc with
  | nil => exact Or.inl hmem
  | cons kv rest ih =>
      rw [merge_sub, List.foldl_cons] at hmem
      rcases ih _ (by exact hmem) with h | h
      · rcases mem_dictSet _ _ _ _ _ h with h' | h'
        · exact Or.inl h'
        · exact Or.inr (by simp [h'.1, h'.2])
      · exact Or.inr (by simp [h])

/-- The Namespace kinds the export pass recurses into (the Python
isinstance check against Namespace). -/
def nsKind : NodeKind → Bool
  | NodeKind.Namespace => true
  | NodeKind.Function => true
  | NodeKind.Template => true
  | NodeKind.Class => true
  | _ => false

/-- d is reachable from i as a child or through a chain of Namespace-kind
children: the positions the export traversal can visit. -/
inductive ReachChild (h : Heap) : Nat → Nat → Prop where
  | direct {i c : Nat} (s : String) (hmem : (s, c) ∈ (getNode h i).children) :
      ReachChild h i c
  | nest {i c d : Nat} (s : String) (hmem : (s, c) ∈ (getNode h i).children)
      (hk : nsKind (getNode h c).kind = true) (hr : ReachChild h c d) :
      ReachChild h i d

theorem foldl_export_step_none (h : Heap)
    (rec : Nat → Option (Except (List String) PathMap)) (cs : List (String × Nat)) :
    List.foldl (export_step h rec) none cs = none := by
  induction cs with
  | nil => rfl
  | cons kc rest ih => simpa [export_step] using ih

theorem foldl_export_step_error (h : Heap)
    (rec : Nat → Option (Except (List String) PathMap)) (cs : List (String × Nat))
    (e : List String) :
    List.foldl (export_step h rec) (some (Except.error e)) cs =
      some (Except.error e) := by
  induction cs with
  | nil => rfl
  | cons kc rest ih => simpa [export_step] using ih

/-- Entry invariant of the export artifact: a unit entry maps the full path
of an MCFunction node to that node. -/
def exportEntryOK (h : Heap) (p : List String) (u : Nat) : Prop :=
  (getNode h u).kind = NodeKind.MCFunction ∧ pathW h u = p

/-- What the traversal guarantees for one visited child. -/
def exportChildOK (h : Heap) (c : Nat) : Prop :=
  ((getNode h c).kind = NodeKind.Function → (getNode h c).was_ended = true) ∧
  (nsKind (getNode h c).kind = true →
    ∀ d, ReachChild h c d → (getNode h d).kind = NodeKind.Function →
      (getNode h d).was_ended = true)

/-- The unfinished-scope error carries the canonical path of a reachable
Function that was not ended. -/
def exportErrSpec (h : Heap) (i : Nat) (e : List String) : Prop :=
  ∃ d, ReachChild h i d ∧ (getNode h d).kind = NodeKind.Function ∧
    (getNode h d).was_ended = false ∧ pathW h d = e

theorem merge_sub_cons (acc : PathMap) (kv : List String × Nat) (rest : PathMap) :
    merge_sub acc (kv :: rest) = merge_sub (dictSet acc kv.1 kv.2) rest := rfl

theorem dictGet_isSome_dictSet {α β : Type} [DecidableEq α] (m : List (α × β))
    (k k' : α) (v : β) (hk : (dictGet m k').isSome = true) :
    (dictGet (dictSet m k v) k').isSome = true := by
  by_cases h0 : k' = k
  · subst h0
    rw [dictGet_dictSet_self]
    rfl
  · rw [dictGet_dictSet_ne _ _ _ _ h0]
    exact hk

theorem merge_sub_hasKey_left (acc sub : PathMap) (k : List String)
    (hk : (dictGet acc k).isSome = true) :
    (dictGet (merge_sub acc sub) k).isSome = true := by
  induction sub generalizing acc with
  | nil => exact hk
  | cons kv rest ih =>
      rw [merge_sub_cons]
      exact ih _ (dictGet_isSome_dictSet _ _ _ _ hk)

theorem merge_sub_hasKey_right (acc sub : PathMap) (k : List String)
    (hk : (dictGet sub k).isSome = true) :
    (dictGet (merge_sub acc sub) k).isSome = true := by
  induction sub generalizing acc with
  | nil => simp [dictGet] at hk
  | cons kv rest ih =>
      obtain ⟨k0, v0⟩ := kv
      rw [merge_sub_cons]
      by_cases hkk : k0 = k
      · subst hkk
        exact merge_sub_hasKey_left _ _ _ (by rw [dictGet_dictSet_self]; rfl)
      · simp only [dictGet, hkk, if_false] at hk
        exact ih _ hk

/-- Completeness of the traversal for one visited child: a unit child has
its path as a key of the final map, and every unit inside a recursed child
namespace does too. -/
def exportChildComplete (h : Heap) (c : Nat) (m : PathMap) : Prop :=
  ((getNode h c).kind = NodeKind.MCFunction →
    (dictGet m (pathW h c)).isSome = true) ∧
  (nsKind (getNode h c).kind = true →
    ∀ d, ReachChild h c d → (getNode h d).kind = NodeKind.MCFunction →
      (dictGet m (pathW h d)).isSome = true)

/-- Induction statement for the export pass at a given fuel. -/
def exportSpec (h : Heap) (fuel : Nat) : Prop :=
  ∀ i r, get_all_mcfunctions h fuel i = some r →
    (∀ e, r = Except.error e → exportErrSpec h i e) ∧
    (∀ m, r = Except.ok m →
      (∀ d, ReachChild h i d → (getNode h d).kind = NodeKind.Function →
        (getNode h d).was_ended = true) ∧
      (∀ p u, (p, u) ∈ m → exportEntryOK h p u) ∧
      (∀ d, ReachChild h i d → (getNode h d).kind = NodeKind.MCFunction →
        (dictGet m (pathW h d)).isSome = true))

theorem export_fold_spec (h : Heap) (fuel : Nat) (hIH : exportSpec h fuel)
    (i : Nat) (cs : List (String × Nat)) :
    ∀ (accm : PathMap) (r : Except (List String) PathMap),
    (∀ kc ∈ cs, kc ∈ (getNode h i).children) →
    (∀ p u, (p, u) ∈ accm → exportEntryOK h p u) →
    List.foldl (export_step h (fun c => get_all_mcfunctions h fuel c))
      (some (Except.ok accm)) cs = some r →
    (∀ e, r = Except.error e → exportErrSpec h i e) ∧
    (∀ m, r = Except.ok m →
      (∀ kc ∈ cs, exportChildOK h kc.2) ∧
      (∀ p u, (p, u) ∈ m → exportEntryOK h p u) ∧
      (∀ k, (dictGet accm k).isSome = true → (dictGet m k).isSome = true) ∧
      (∀ kc ∈ cs, exportChildComplete h kc.2 m)) := by
  induction cs with
  | nil =>
      intro accm r _ hacc hfold
      have hr : r = Except.ok accm := by
        rw [List.foldl_nil] at hfold
        exact (Option.some_injective _ hfold).symm
      subst hr
      constructor
      · intro e he; cases he
      · intro m hm
        cases hm
        exact ⟨by simp, hacc, fun k hk => hk, by simp⟩
  | cons kc rest ih =>
      intro accm r hsub hacc hfold
      rw [List.foldl_cons] at hfold
      have hmem0 : kc ∈ (getNode h i).children := hsub kc (by simp)
      have hmem0' : (kc.1, kc.2) ∈ (getNode h i).children := by
        simpa using hmem0
      have hsubr : ∀ kc' ∈ rest, kc' ∈ (getNode h i).children :=
        fun kc' hk' => hsub kc' (by simp [hk'])
      have hrec_case :
          ∀ (hk2 : nsKind (getNode h kc.2).kind = true)
            (hfe : (getNode h kc.2).kind = NodeKind.Function →
              (getNode h kc.2).was_ended = true),
          List.foldl (export_step h (fun c => get_all_mcfunctions h fuel c))
            (recurse_merge (get_all_mcfunctions h fuel kc.2) accm) rest = some r →
          (∀ e, r = Except.error e → exportErrSpec h i e) ∧
          (∀ m, r = Except.ok m →
            (∀ kc' ∈ kc :: rest, exportChildOK h kc'.2) ∧
            (∀ p u, (p, u) ∈ m → exportEntryOK h p u) ∧
            (∀ k, (dictGet accm k).isSome = true →
              (dictGet m k).isSome = true) ∧
            (∀ kc' ∈ kc :: rest, exportChildComplete h kc'.2 m)) := by
        intro hk2 hfe hfold'
        cases hrec : get_all_mcfunctions h fuel kc.2 with
        | none =>
            rw [hrec] at hfold'
            rw [show recurse_merge none accm = none from rfl,
              foldl_export_step_none] at hfold'
            cases hfold'
        | some sub =>
            cases sub with
            | error e' =>
                rw [hrec] at hfold'
                rw [show recurse_merge (some (Except.error e')) accm =
                    some (Except.error e') from rfl,
                  foldl_export_step_error] at hfold'
                have hr : r = Except.error e' :=
                  (Option.some_injective _ hfold').symm
                subst hr
                constructor
                · intro e he
                  cases he
                  obtain ⟨d, hd, hdf, hde, hdp⟩ :=
                    ((hIH kc.2 _ hrec).1 e' rfl)
                  exact ⟨d, ReachChild.nest kc.1 hmem0' hk2 hd, hdf, hde, hdp⟩
                · intro m hm; cases hm
            | ok sub =>
                rw [hrec] at hfold'
                rw [show recurse_merge (some (Except.ok sub)) accm =
                    some (Except.ok (merge_sub accm sub)) from rfl] at hfold'
                have hsubok := (hIH kc.2 _ hrec).2 sub rfl
                have hacc' : ∀ p u, (p, u) ∈ merge_sub accm sub →
                    exportEntryOK h p u := by
                  intro p u hpu
                  rcases mem_merge_sub _ _ _ _ hpu with hin | hin
                  · exact hacc p u hin
                  · exact hsubok.2.1 p u hin
                obtain ⟨he, ho⟩ := ih _ _ hsubr hacc' hfold'
                refine ⟨he, ?_⟩
                intro m hm
                obtain ⟨hok1, hok2, hmono, hcomp⟩ := ho m hm
                refine ⟨?_, hok2, ?_, ?_⟩
                · intro kc' hk'
                  rcases List.mem_cons.1 hk' with hh | hh
                  · subst hh
                    exact ⟨hfe, fun _ d hr' hf' => hsubok.1 d hr' hf'⟩
                  · exact hok1 kc' hh
                · intro k hk
                  exact hmono k (merge_sub_hasKey_left accm sub k hk)
                · intro kc' hk'
                  rcases List.mem_cons.1 hk' with hh | hh
                  · subst hh
                    refine ⟨fun hmc => absurd hk2 (by rw [hmc]; simp [nsKind]),
                      fun _ d hr' hd => ?_⟩
                    exact hmono _ (merge_sub_hasKey_right accm sub _
                      (hsubok.2.2 d hr' hd))
                  · exact hcomp kc' hh
      cases hk : (getNode h kc.2).kind with
      | MCFunction =>
          rw [show export_step h (fun c => get_all_mcfunctions h fuel c)
              (some (Except.ok accm)) kc =
              some (Except.ok (dictSet accm (pathW h kc.2) kc.2)) from by
            simp [export_step, hk]] at hfold
          have hacc' : ∀ p u, (p, u) ∈ dictSet accm (pathW h kc.2) kc.2 →
              exportEntryOK h p u := by
            intro p u hpu
            rcases mem_dictSet _ _ _ _ _ hpu with hin | hin
            · exact hacc p u hin
            · exact ⟨by rw [hin.2]; exact hk, by rw [hin.1, hin.2]⟩
          obtain ⟨he, ho⟩ := ih _ _ hsubr hacc' hfold
          refine ⟨he, ?_⟩
          intro m hm
          obtain ⟨hok1, hok2, hmono, hcomp⟩ := ho m hm
          refine ⟨?_, hok2, ?_, ?_⟩
          · intro kc' hk'
            rcases List.mem_cons.1 hk' with hh | hh
            · subst hh
              exact ⟨fun hf => absurd (hk.symm.trans hf) (by simp),
                fun hns => absurd (hk ▸ hns) (by simp [nsKind])⟩
            · exact hok1 kc' hh
          · intro k hk'
            exact hmono k (dictGet_isSome_dictSet _ _ _ _ hk')
          · intro kc' hk'
            rcases List.mem_cons.1 hk' with hh | hh
            · subst hh
              refine ⟨fun _ => hmono _ ?_,
                fun hns => absurd (hk ▸ hns) (by simp [nsKind])⟩
              rw [dictGet_dictSet_self]
              rfl
            · exact hcomp kc' hh
      | FunctionTag =>
          rw [show export_step h (fun c => get_all_mcfunctions h fuel c)
              (some (Except.ok accm)) kc = some (Except.ok accm) from by
            simp [export_step, hk]] at hfold
          obtain ⟨he, ho⟩ := ih _ _ hsubr hacc hfold
          refine ⟨he, ?_⟩
          intro m hm
          obtain ⟨hok1, hok2, hmono, hcomp⟩ := ho m hm
          refine ⟨?_, hok2, hmono, ?_⟩
          · intro kc' hk'
            rcases List.mem_cons.1 hk' with hh | hh
            · subst hh
              exact ⟨fun hf => absurd (hk.symm.trans hf) (by simp),
                fun hns => absurd (hk ▸ hns) (by simp [nsKind])⟩
            · exact hok1 kc' hh
          · intro kc' hk'
            rcases List.mem_cons.1 hk' with hh | hh
            · subst hh
              exact ⟨fun hmc => absurd (hk.symm.trans hmc) (by simp),
                fun hns => absurd (hk ▸ hns) (by simp [nsKind])⟩
            · exact hcomp kc' hh
      | Function =>
          by_cases hw : (getNode h kc.2).was_ended
          · rw [show export_step h (fun c => get_all_mcfunctions h fuel c)
                (some (Except.ok accm)) kc =
                recurse_merge (get_all_mcfunctions h fuel kc.2) accm from by
              simp [export_step, hk, hw]] at hfold
            exact hrec_case (by simp [nsKind, hk]) (fun _ => hw) hfold
          · rw [show export_step h (fun c => get_all_mcfunctions h fuel c)
                (some (Except.ok accm)) kc =
                some (Except.error (pathW h kc.2)) from by
              simp [export_step, hk, hw]] at hfold
            rw [foldl_export_step_error] at hfold
            have hr : r = Except.error (pathW h kc.2) :=
              (Option.some_injective _ hfold).symm
            subst hr
            constructor
            · intro e he
              cases he
              exact ⟨kc.2, ReachChild.direct kc.1 hmem0', hk,
                by simpa using hw, rfl⟩
            · intro m hm; cases hm
      | Namespace =>
          rw [show export_step h (fun c => get_all_mcfunctions h fuel c)
              (some (Except.ok accm)) kc =
              recurse_merge (get_all_mcfunctions h fuel kc.2) accm from by
            simp [export_step, hk]] at hfold
          exact hrec_case (by simp [nsKind, hk])
            (fun hf => absurd (hk.symm.trans hf) (by simp)) hfold
      | Template =>
          rw [show export_step h (fun c => get_all_mcfunctions h fuel c)
              (some (Except.ok accm)) kc =
              recurse_merge (get_all_mcfunctions h fuel kc.2) accm from by
            simp [export_step, hk]] at hfold
          exact hrec_case (by simp [nsKind, hk])
            (fun hf => absurd (hk.symm.trans hf) (by simp)) hfold
      | Class =>
          rw [show export_step h (fun c => get_all_mcfunctions h fuel c)
              (some (Except.ok accm)) kc =
              recurse_merge (get_all_mcfunctions h fuel kc.2) accm from by
            simp [export_step, hk]] at hfold
          exact hrec_case (by simp [nsKind, hk])
            (fun hf => absurd (hk.symm.trans hf) (by simp)) hfold

theorem export_spec_all (h : Heap) : ∀ fuel, exportSpec h fuel := by
  intro fuel
  induction fuel with
  | zero => intro i r hr; cases hr
  | succ fuel ih =>
      intro i r hr
      rw [get_all_mcfunctions] at hr
      obtain ⟨he, ho⟩ := export_fold_spec h fuel ih i (getNode h i).children []
        r (fun kc hk => hk) (by simp) hr
      refine ⟨he, ?_⟩
      intro m hm
      obtain ⟨hok1, hok2, _hmono, hcomp⟩ := ho m hm
      refine ⟨?_, hok2, ?_⟩
      · intro d hd hf
        cases hd with
        | direct s hmem => exact (hok1 _ hmem).1 hf
        | nest s hmem hk2 hr' => exact (hok1 _ hmem).2 hk2 d hr' hf
      · intro d hd hmc
        cases hd with
        | direct s hmem => exact (hcomp _ hmem).1 hmc
        | nest s hmem hk2 hr' => exact (hcomp _ hmem).2 hk2 d hr' hmc

/-- Well-formed arena: within the allocated prefix, every child binding
points to a strictly larger, allocated id.  Every heap this API builds
satisfies it, since children are always allocated after their parents. -/
def ChildWF (h : Heap) : Prop :=
  ∀ j, j < h.size → ∀ kc ∈ (getNode h j).children, j < kc.2 ∧ kc.2 < h.size

instance (h : Heap) : Decidable (ChildWF h) := by
  unfold ChildWF
  infer_instance

theorem export_step_ne_none (h : Heap)
    (rec : Nat → Option (Except (List String) PathMap))
    (acc : Option (Except (List String) PathMap)) (kc : String × Nat)
    (hacc : acc ≠ none) (hr : rec kc.2 ≠ none) :
    export_step h rec acc kc ≠ none := by
  cases acc with
  | none => exact absurd rfl hacc
  | some x =>
      cases x with
      | error e => simp [export_step]
      | ok m =>
          cases hrv : rec kc.2 with
          | none => exact absurd hrv hr
          | some sub =>
              cases hk : (getNode h kc.2).kind <;>
                cases sub <;>
                  simp [export_step, hk, recurse_merge, hrv] <;>
                    split <;> simp [recurse_merge, hrv]

theorem foldl_export_step_ne_none (h : Heap)
    (rec : Nat → Option (Except (List String) PathMap))
    (cs : List (String × Nat)) :
    ∀ acc, acc ≠ none → (∀ kc ∈ cs, rec kc.2 ≠ none) →
    List.foldl (export_step h rec) acc cs ≠ none := by
  induction cs with
  | nil => intro acc hacc _; simpa using hacc
  | cons kc rest ih =>
      intro acc hacc hrec
      rw [List.foldl_cons]
      exact ih _
        (export_step_ne_none h rec acc kc hacc (hrec kc (by simp)))
        (fun kc' hk' => hrec kc' (by simp [hk']))

theorem export_total (h : Heap) (hwf : ChildWF h) :
    ∀ fuel i, i < h.size → h.size ≤ i + fuel →
    get_all_mcfunctions h (fuel + 1) i ≠ none := by
  intro fuel
  induction fuel with
  | zero => intro i hi hsz; omega
  | succ fuel ih =>
      intro i hi hsz
      rw [get_all_mcfunctions]
      apply foldl_export_step_ne_none h _ _ _ (by simp)
      intro kc hk
      obtain ⟨hic, hcs⟩ := hwf i hi kc hk
      exact ih kc.2 hcs (by omega)

/-- C4: whenever the export pass terminates, an unfinished-scope error means
a Function reachable through the children chain was not ended, and the error
carries exactly the canonical path of that Function; a successful result
means every reachable Function was ended, and the produced artifact is the
mapping from each unit's full path to that unit: soundly, every returned
entry sends the full path of an MCFunction to it, and completely, every
reachable unit has its full path bound in the map to a unit with that same
path (path collisions are last-write-wins in the source, so the bound unit
is the last one collected with that path).  On a well-formed arena with
fuel at least the remaining id budget, the pass terminates. -/
theorem get_all_mcfunctions_spec (h : Heap) (fuel i : Nat) :
    (∀ r, get_all_mcfunctions h fuel i = some r →
      (∀ e, r = Except.error e → ∃ d, ReachChild h i d ∧
        (getNode h d).kind = NodeKind.Function ∧
        (getNode h d).was_ended = false ∧ pathW h d = e) ∧
      (∀ m, r = Except.ok m →
        (∀ d, ReachChild h i d → (getNode h d).kind = NodeKind.Function →
          (getNode h d).was_ended = true) ∧
        (∀ p u, (p, u) ∈ m → (getNode h u).kind = NodeKind.MCFunction ∧
          pathW h u = p) ∧
        (∀ d, ReachChild h i d → (getNode h d).kind = NodeKind.MCFunction →
          ∃ u, dictGet m (pathW h d) = some u ∧
            (getNode h u).kind = NodeKind.MCFunction ∧
            pathW h u = pathW h d))) ∧
    (ChildWF h → i < h.size → h.size ≤ i + fuel →
      get_all_mcfunctions h (fuel + 1) i ≠ none) := by
  constructor
  · intro r hr
    obtain ⟨he, ho⟩ := export_spec_all h fuel i r hr
    refine ⟨he, ?_⟩
    intro m hm
    obtain ⟨h1, h2, h3⟩ := ho m hm
    refine ⟨h1, h2, ?_⟩
    intro d hd hmc
    obtain ⟨u, hu⟩ := Option.isSome_iff_exists.1 (h3 d hd hmc)
    obtain ⟨hku, hpu⟩ := h2 _ u (dictGet_mem m _ u hu)
    exact ⟨u, hu, hku, hpu⟩
  · intro hwf hi hsz
    exact export_total h hwf fuel i hi hsz

/-- C4 witness: the export spec at the concrete end-to-end heap, whose
traversal succeeds, plus the concrete well-formedness facts that discharge
the totality hypotheses. -/
theorem get_all_mcfunctions_spec_witness :
    get_all_mcfunctions e2e_heap 6 0 =
      some (Except.ok
        [(["ns", "f", "f"], 2),
         (["ns", "f", "if1", "if1"], 4),
         (["ns", "f", "if-continue2"], 5)]) ∧
    ChildWF e2e_heap ∧ 0 < e2e_heap.size ∧ e2e_heap.size ≤ 0 + 6 ∧
    ((∀ r, get_all_mcfunctions e2e_heap 6 0 = some r →
      (∀ e, r = Except.error e → ∃ d, ReachChild e2e_heap 0 d ∧
        (getNode e2e_heap d).kind = NodeKind.Function ∧
        (getNode e2e_heap d).was_ended = false ∧ pathW e2e_heap d = e) ∧
      (∀ m, r = Except.ok m →
        (∀ d, ReachChild e2e_heap 0 d →
          (getNode e2e_heap d).kind = NodeKind.Function →
          (getNode e2e_heap d).was_ended = true) ∧
        (∀ p u, (p, u) ∈ m →
          (getNode e2e_heap u).kind = NodeKind.MCFunction ∧
          pathW e2e_heap u = p) ∧
        (∀ d, ReachChild e2e_heap 0 d →
          (getNode e2e_heap d).kind = NodeKind.MCFunction →
          ∃ u, dictGet m (pathW e2e_heap d) = some u ∧
            (getNode e2e_heap u).kind = NodeKind.MCFunction ∧
            pathW e2e_heap u = pathW e2e_heap d))) ∧
     (ChildWF e2e_heap → 0 < e2e_heap.size → e2e_heap.size ≤ 0 + 6 →
      get_all_mcfunctions e2e_heap (6 + 1) 0 ≠ none)) :=
  ⟨by decide, by decide, by decide, by decide,
    get_all_mcfunctions_spec e2e_heap 6 0⟩

/-- Well-formed arena, parent side: within the allocated prefix every parent
back-reference points to a strictly smaller id.  Every heap this API builds
satisfies it, since a parent always exists before its children. -/
def ParentWF (h : Heap) : Prop :=
  ∀ j, j < h.size → ∀ p ∈ (getNode h j).parent, p < j

instance (h : Heap) : Decidable (ParentWF h) := by
  unfold ParentWF
  infer_instance

theorem pathAux_stable (h : Heap) (hp : ParentWF h) :
    ∀ i, i < h.size → ∀ f, i < f → pathAux h f i = pathAux h (i + 1) i := by
  intro i
  induction i using Nat.strong_induction_on with
  | _ i ih =>
      intro hi f hf
      obtain ⟨f', rfl⟩ : ∃ f', f = f' + 1 := ⟨f - 1, by omega⟩
      cases hpar : (getNode h i).parent with
      | none => simp only [pathAux, hpar]
      | some p =>
          have hpi : p < i := hp i hi p (by simp [hpar])
          simp only [pathAux, hpar]
          rw [ih p hpi (by omega) f' (by omega), ih p hpi (by omega) i (by omega)]

theorem pathAux_congr (h h' : Heap) (t : Nat)
    (heq : ∀ j, j ≠ t → getNode h' j = getNode h j) (hst : h.size ≤ t)
    (hp : ParentWF h) :
    ∀ fuel c, c < h.size → pathAux h' fuel c = pathAux h fuel c := by
  intro fuel
  induction fuel with
  | zero =>
      intro c hc
      simp only [pathAux, heq c (by omega)]
  | succ fuel ih =>
      intro c hc
      simp only [pathAux, heq c (by omega)]
      cases hpar : (getNode h c).parent with
      | none => rfl
      | some p =>
          have hpc : p < c := hp c hc p (by simp [hpar])
          dsimp only
          rw [ih p (by omega)]

theorem pathW_congr (h h' : Heap) (t : Nat)
    (heq : ∀ j, j ≠ t → getNode h' j = getNode h j) (hst : h.size ≤ t)
    (hp : ParentWF h) (c : Nat) (hc : c < h.size) :
    pathW h' c = pathW h c :=
  pathAux_congr h h' t heq hst hp (c + 1) c hc

theorem export_step_congr (h h' : Heap) (t : Nat)
    (rec rec' : Nat → Option (Except (List String) PathMap))
    (heq : ∀ j, j ≠ t → getNode h' j = getNode h j) (hst : h.size ≤ t)
    (hp : ParentWF h) (acc : Option (Except (List String) PathMap))
    (kc : String × Nat) (hc : kc.2 < h.size) (hrec : rec' kc.2 = rec kc.2) :
    export_step h' rec' acc kc = export_step h rec acc kc := by
  cases acc with
  | none => rfl
  | some x =>
      cases x with
      | error e => rfl
      | ok m =>
          simp only [export_step, heq kc.2 (by omega),
            pathW_congr h h' t heq hst hp kc.2 hc, hrec]

theorem get_all_mcfunctions_congr (h h' : Heap) (t : Nat)
    (heq : ∀ j, j ≠ t → getNode h' j = getNode h j) (hst : h.size ≤ t)
    (hp : ParentWF h) (hwf : ChildWF h) :
    ∀ fuel i, i < h.size →
    get_all_mcfunctions h' fuel i = get_all_mcfunctions h fuel i := by
  intro fuel
  induction fuel with
  | zero => intro i _; rfl
  | succ fuel ih =>
      intro i hi
      rw [get_all_mcfunctions, get_all_mcfunctions, heq i (by omega)]
      have hfold : ∀ (cs : List (String × Nat)),
          (∀ kc ∈ cs, kc.2 < h.size) →
          ∀ acc, List.foldl (export_step h'
              (fun c => get_all_mcfunctions h' fuel c)) acc cs =
            List.foldl (export_step h
              (fun c => get_all_mcfunctions h fuel c)) acc cs := by
        intro cs
        induction cs with
        | nil => intro _ acc; rfl
        | cons kc rest ihcs =>
            intro hcs acc
            rw [List.foldl_cons, List.foldl_cons,
              export_step_congr h h' t _ _ heq hst hp acc kc
                (hcs kc (by simp)) (ih kc.2 (hcs kc (by simp))),
              ihcs (fun kc' hk' => hcs kc' (by simp [hk']))]
      exact hfold (getNode h i).children
        (fun kc hk => (hwf i hi kc hk).2) _

/-- C10: create_function_tag allocates a FunctionTag whose parent is the
namespace, so its canonical path is the namespace path extended by the tag
name, but unlike every other create_* constructor it never inserts the tag
into the children mapping: the namespace lookup still raises KeyError for
the name afterwards, no node of the arena holds the tag as a child, and the
export traversal is unchanged, so the tag is never visited. -/
theorem create_function_tag_spec (h : Heap) (n : Nat) (s : String)
    (hn : n < h.size) (hmiss : ns_get h n s = none)
    (hp : ParentWF h) (hwf : ChildWF h) :
    (create_function_tag h n s).2 = h.size ∧
    getNode (create_function_tag h n s).1 h.size =
      { kind := NodeKind.FunctionTag, name := s, parent := some n } ∧
    pathW (create_function_tag h n s).1 h.size = pathW h n ++ [s] ∧
    ns_get (create_function_tag h n s).1 n s = none ∧
    (∀ j k, j < h.size + 1 →
      (k, h.size) ∉ (getNode (create_function_tag h n s).1 j).children) ∧
    (∀ fuel root, root < h.size →
      get_all_mcfunctions (create_function_tag h n s).1 fuel root =
        get_all_mcfunctions h fuel root) := by
  have heq : ∀ j, j ≠ h.size →
      getNode (create_function_tag h n s).1 j = getNode h j := by
    intro j hj
    simp only [create_function_tag, alloc_snd]
    rw [getNode_setNode_ne _ _ _ _ hj, getNode_alloc_ne _ _ _ hj]
  have hnew : getNode (create_function_tag h n s).1 h.size =
      { kind := NodeKind.FunctionTag, name := s, parent := some n } := by
    simp only [create_function_tag, alloc_snd]
    rw [getNode_setNode_self, getNode_alloc_self]
  refine ⟨rfl, hnew, ?_, ?_, ?_, ?_⟩
  · have hstep : pathW (create_function_tag h n s).1 h.size =
        pathAux (create_function_tag h n s).1 h.size n ++ [s] := by
      simp only [pathW, pathAux, hnew]
    rw [hstep, pathAux_congr h (create_function_tag h n s).1 h.size heq
        (le_refl _) hp h.size n hn,
      pathAux_stable h hp n hn h.size hn, pathW]
  · rw [ns_get, heq n (by omega)]
    exact hmiss
  · intro j k hj hmem
    by_cases hjs : j = h.size
    · subst hjs
      rw [hnew] at hmem
      simp at hmem
    · rw [heq j hjs] at hmem
      have := (hwf j (by omega) (k, h.size) hmem).2
      omega
  · intro fuel root hroot
    exact get_all_mcfunctions_congr h (create_function_tag h n s).1 h.size heq
      (le_refl _) hp hwf fuel root hroot

/-- C10 witness: the function-tag spec at the end-to-end heap, creating a
tag named load under the root namespace. -/
theorem create_function_tag_spec_witness :
    (0 < e2e_heap.size ∧ ns_get e2e_heap 0 "load" = none ∧
     ParentWF e2e_heap ∧ ChildWF e2e_heap) ∧
    ((create_function_tag e2e_heap 0 "load").2 = e2e_heap.size ∧
     getNode (create_function_tag e2e_heap 0 "load").1 e2e_heap.size =
       { kind := NodeKind.FunctionTag, name := "load", parent := some 0 } ∧
     pathW (create_function_tag e2e_heap 0 "load").1 e2e_heap.size =
       pathW e2e_heap 0 ++ ["load"] ∧
     ns_get (create_function_tag e2e_heap 0 "load").1 0 "load" = none ∧
     (∀ j k, j < e2e_heap.size + 1 →
       (k, e2e_heap.size) ∉
         (getNode (create_function_tag e2e_heap 0 "load").1 j).children) ∧
     (∀ fuel root, root < e2e_heap.size →
       get_all_mcfunctions (create_function_tag e2e_heap 0 "load").1 fuel root =
         get_all_mcfunctions e2e_heap fuel root)) :=
  ⟨⟨by decide, by decide, by decide, by decide⟩,
    create_function_tag_spec e2e_heap 0 "load" (by decide) (by decide)
      (by decide) (by decide)⟩
